import Mathlib

/-!
Verification of the hybrid-search and versioning subsystem of the
llm-prompt-manager repository, as implemented in src/server/db.js.

The SQLite-backed persistence layer is modelled as an explicit record
store (DBState).  Each exported database function of db.js is translated
into a pure Lean function over this store.  Asynchronous sqlite statement
callbacks that can report an error are modelled by explicit Boolean
fault parameters (one per SQL statement that the function runs); the
value false means the statement executed normally and true means the
driver reported an error to its callback.  Timestamps (ISO strings and
CURRENT_TIMESTAMP) are opaque to all of the verified logic and are
modelled as natural numbers supplied by the caller.

Schema facts carried over from initializeDb in db.js:
  - prompts.id is the PRIMARY KEY (inserting a duplicate id fails);
  - prompt_versions has UNIQUE(prompt_id, version_number) (an INSERT
    that repeats the pair fails with a constraint error);
  - prompt_versions and prompt_embeddings reference prompts(id)
    ON DELETE CASCADE, and connectDb enables PRAGMA foreign_keys, so
    deleting a prompt removes its version and embedding rows;
  - version-record ids are fresh uuidv4 values, so the version id
    PRIMARY KEY can never collide and is not re-checked here.
-/

/-- A row of the prompts table (db.js initializeDb).  category is
nullable; title and content are NOT NULL and therefore plain strings. -/
structure Prompt where
  id : String
  title : String
  content : String
  category : Option String
  created_at : Nat
  updated_at : Nat
deriving DecidableEq

/-- A row of the prompt_versions table.  change_reason is nullable. -/
structure PromptVersion where
  id : String
  prompt_id : String
  version_number : Nat
  title : String
  content : String
  category : Option String
  created_at : Nat
  change_reason : Option String
deriving DecidableEq

/-- A row of the prompt_embeddings table.  The BLOB column holds the
Float32Array; its numeric content is modelled with exact rationals. -/
structure EmbeddingRow where
  prompt_id : String
  vector : List ℚ
  embedding_model : String
deriving DecidableEq

/-- The record store: the three tables of db.js that the verified
subsystem reads and writes. -/
structure DBState where
  prompts : List Prompt
  versions : List PromptVersion
  embeddings : List EmbeddingRow
deriving DecidableEq

/-- The error outcomes that the db.js layer can reject with.  sqlError
stands for any error reported by the sqlite driver itself, including
UNIQUE-constraint violations and injected statement failures. -/
inductive DbError where
  | invalidInput
  | notFound
  | ambiguous
  | versionNotFound
  | sqlError
deriving DecidableEq

/-- The whitespace class of the JavaScript regular expression \s and of
String.prototype.trim, restricted to the characters that actually occur
in identifiers and prompt text (ASCII whitespace plus NBSP). -/
def isJsSpace (c : Char) : Bool :=
  c = ' ' ∨ c = '\t' ∨ c = '\n' ∨ c = '\r' ∨ c = '\x0b' ∨ c = '\x0c' ∨ c = ' '

/-- ASCII case folding: SQLite LIKE compares the letters A-Z and a-z
case-insensitively and every other character verbatim. -/
def lowerAscii (c : Char) : Char :=
  if 'A' ≤ c ∧ c ≤ 'Z' then Char.ofNat (c.toNat + 32) else c

/-- SQLite LIKE matching over explicit character lists, written with a
structural fuel argument so that the kernel can evaluate it.  The
percent wildcard matches any sequence, the underscore wildcard matches
exactly one character, and ordinary characters match up to ASCII case.
The fuel strictly dominates the combined length of pattern and text, so
the zero-fuel branch is unreachable from likeMatch below. -/
def likeMatchF : Nat → List Char → List Char → Bool
  | 0, _, _ => false
  | _ + 1, [], s => s.isEmpty
  | fuel + 1, p :: ps, s =>
    if p = '%' then
      likeMatchF fuel ps s ||
        (match s with
         | [] => false
         | _ :: s2 => likeMatchF fuel (p :: ps) s2)
    else
      match s with
      | [] => false
      | c :: s2 =>
        if p = '_' then likeMatchF fuel ps s2
        else lowerAscii p = lowerAscii c && likeMatchF fuel ps s2

/-- SQLite LIKE with enough fuel for the given pattern and text. -/
def likeMatch (ps s : List Char) : Bool :=
  likeMatchF (ps.length + s.length + 1) ps s

/-- _resolvePromptId from db.js.  The input is rejected before any table
access when it is empty or whitespace-only (String.trim comparing equal
to the empty string is the same test as every character being
whitespace); a 36-character input is looked up exactly by primary key;
a shorter non-empty input is matched with LIKE input-percent against
every stored id. -/
def resolvePromptId (s : DBState) (idInput : String) : Except DbError String :=
  if idInput.data.all isJsSpace then Except.error DbError.invalidInput
  else if idInput.length = 36 then
    match s.prompts.find? (fun p => p.id = idInput) with
    | some row => Except.ok row.id
    | none => Except.error DbError.notFound
  else if 0 < idInput.length ∧ idInput.length < 36 then
    match s.prompts.filter (fun p => likeMatch (idInput.data ++ ['%']) p.id.data) with
    | [] => Except.error DbError.notFound
    | [row] => Except.ok row.id
    | _ :: _ :: _ => Except.error DbError.ambiguous
  else Except.error DbError.invalidInput

/-- getPromptById from db.js: resolve the identifier, then re-read the
full row.  The inner none branch corresponds to the defensive
should-not-happen rejection in the source. -/
def getPromptById (s : DBState) (idInput : String) : Except DbError Prompt :=
  match resolvePromptId s idInput with
  | Except.error e => Except.error e
  | Except.ok fullId =>
    match s.prompts.find? (fun p => p.id = fullId) with
    | some row => Except.ok row
    | none => Except.error DbError.notFound

/-- True when the prompt_versions table already holds the given
(prompt_id, version_number) pair, i.e. when an INSERT of that pair
would violate the UNIQUE(prompt_id, version_number) constraint. -/
def versionConflict (s : DBState) (pid : String) (n : Nat) : Bool :=
  s.versions.any (fun v => v.prompt_id = pid && v.version_number = n)

/-- One INSERT INTO prompt_versions statement: it fails when the driver
reports an error or when the UNIQUE(prompt_id, version_number)
constraint is violated, and otherwise appends the row. -/
def insertVersion (s : DBState) (stmtFails : Bool) (v : PromptVersion) :
    Except DbError DBState :=
  if stmtFails || versionConflict s v.prompt_id v.version_number then
    Except.error DbError.sqlError
  else Except.ok { s with versions := s.versions ++ [v] }

/-- True when a prompt with the given primary key already exists. -/
def promptIdTaken (s : DBState) (pid : String) : Bool :=
  s.prompts.any (fun p => p.id = pid)

/-- One INSERT INTO prompts statement, failing on a driver error or a
primary-key collision. -/
def insertPrompt (s : DBState) (stmtFails : Bool) (p : Prompt) :
    Except DbError DBState :=
  if stmtFails || promptIdTaken s p.id then Except.error DbError.sqlError
  else Except.ok { s with prompts := s.prompts ++ [p] }

/-- The argument object of createPrompt in db.js. -/
structure CreateData where
  title : String
  content : String
  category : Option String
deriving DecidableEq

/-- The trailing SELECT of createPrompt, reading back the row that was
just written. -/
def selectPromptRow (s : DBState) (id : String) : DBState × Except DbError Prompt :=
  match s.prompts.find? (fun p => p.id = id) with
  | some row => (s, Except.ok row)
  | none => (s, Except.error DbError.notFound)

/-- createPrompt from db.js.  id and versionId stand for the two fresh
uuidv4 values and now for the ISO timestamp taken at entry.  The prompt
row is inserted first; the initial version-1 snapshot is then inserted,
but an error from that second statement is only logged (the source
merely calls console.error) and the function still resolves with the
freshly read prompt row. -/
def createPrompt (s : DBState) (id versionId : String) (now : Nat)
    (promptStmtFails versionStmtFails : Bool) (d : CreateData) :
    DBState × Except DbError Prompt :=
  match insertPrompt s promptStmtFails
      { id := id, title := d.title, content := d.content,
        category := d.category, created_at := now, updated_at := now } with
  | Except.error e => (s, Except.error e)
  | Except.ok s1 =>
    match insertVersion s1 versionStmtFails
        { id := versionId, prompt_id := id, version_number := 1,
          title := d.title, content := d.content, category := d.category,
          created_at := now, change_reason := none } with
    | Except.ok s2 => selectPromptRow s2 id
    | Except.error _ => selectPromptRow s1 id

/-- The field set destructured by updatePrompt in db.js. -/
structure UpdateData where
  title : String
  content : String
  category : Option String
  change_reason : Option String
deriving DecidableEq

/-- The JavaScript expression (r || d) applied to a string-or-absent
value: both an absent value and the empty string are falsy and select
the default. -/
def jsStringOr (r : Option String) (d : String) : String :=
  match r with
  | none => d
  | some x => if x = "" then d else x

/-- SELECT MAX(version_number) FROM prompt_versions WHERE prompt_id = ?,
with the row?.max_version || 0 coalescing of db.js: 0 when the prompt
has no version rows. -/
def maxVersionNumber (s : DBState) (pid : String) : Nat :=
  (((s.versions.filter (fun v => v.prompt_id = pid)).map
      (fun v => v.version_number)).foldr max 0)

/-- The UPDATE prompts SET title, content, category, updated_at
statement shared by updatePrompt and restorePromptVersion. -/
def overwritePromptRow (s : DBState) (fullId : String) (title content : String)
    (category : Option String) (now : Nat) : DBState :=
  { s with prompts := s.prompts.map (fun p =>
      if p.id = fullId then
        { p with
            title := title, content := content, category := category,
            updated_at := now }
      else p) }

/-- The trailing read-back of updatePrompt and restorePromptVersion:
fetch the freshly updated row and resolve with it. -/
def finishWrite (s2 : DBState) (fullId : String) : DBState × Except DbError Prompt :=
  match getPromptById s2 fullId with
  | Except.ok p => (s2, Except.ok p)
  | Except.error e => (s2, Except.error e)

/-- updatePrompt from db.js.  It resolves the identifier, reads the
current row, computes max existing version plus one, INSERTs a snapshot
of the pre-update state (change_reason defaulting through the JavaScript
or-operator to the string Updated prompt), and then UPDATEs the live
row.  The two SQL statements run without an enclosing transaction: when
the UPDATE fails, the promise rejects but the snapshot INSERT is not
rolled back, which the returned state exposes. -/
def updatePrompt (s : DBState) (versionId : String) (now : Nat)
    (insertStmtFails updateStmtFails : Bool) (idInput : String)
    (d : UpdateData) : DBState × Except DbError Prompt :=
  match resolvePromptId s idInput with
  | Except.error e => (s, Except.error e)
  | Except.ok fullId =>
    match getPromptById s fullId with
    | Except.error e => (s, Except.error e)
    | Except.ok current =>
      match insertVersion s insertStmtFails
          { id := versionId, prompt_id := fullId,
            version_number := maxVersionNumber s fullId + 1,
            title := current.title, content := current.content,
            category := current.category, created_at := now,
            change_reason := some (jsStringOr d.change_reason "Updated prompt") } with
      | Except.error e => (s, Except.error e)
      | Except.ok s1 =>
        if updateStmtFails then (s1, Except.error DbError.sqlError)
        else finishWrite (overwritePromptRow s1 fullId d.title d.content d.category now) fullId

/-- deletePrompt from db.js: DELETE FROM prompts WHERE id = ?, with the
enabled foreign-key cascade removing the version and embedding rows of
the deleted prompt.  The Boolean result is this.changes > 0. -/
def deletePrompt (s : DBState) (idInput : String) :
    DBState × Except DbError Bool :=
  match resolvePromptId s idInput with
  | Except.error e => (s, Except.error e)
  | Except.ok fullId =>
    ({ prompts := s.prompts.filter (fun p => p.id ≠ fullId),
       versions := s.versions.filter (fun v => v.prompt_id ≠ fullId),
       embeddings := s.embeddings.filter (fun e => e.prompt_id ≠ fullId) },
     Except.ok (s.prompts.any (fun p => p.id = fullId)))

/-- Newest-first ordering used by getPromptVersions. -/
def versionDescOrder (a b : PromptVersion) : Prop :=
  b.version_number ≤ a.version_number

instance : DecidableRel versionDescOrder := fun a b =>
  inferInstanceAs (Decidable (b.version_number ≤ a.version_number))

/-- getPromptVersions from db.js: resolve the identifier first (so a
missing prompt rejects before the version table is read), then return
the version rows of the prompt ordered by version_number descending. -/
def getPromptVersions (s : DBState) (idInput : String) :
    Except DbError (List PromptVersion) :=
  match resolvePromptId s idInput with
  | Except.error e => Except.error e
  | Except.ok fullId =>
    Except.ok (List.insertionSort versionDescOrder
      (s.versions.filter (fun v => v.prompt_id = fullId)))

/-- getPromptVersion from db.js: resolve the identifier, then SELECT the
row with the requested version number, rejecting when it is absent. -/
def getPromptVersion (s : DBState) (idInput : String) (versionNumber : Nat) :
    Except DbError PromptVersion :=
  match resolvePromptId s idInput with
  | Except.error e => Except.error e
  | Except.ok fullId =>
    match s.versions.find? (fun v =>
        v.prompt_id = fullId && v.version_number = versionNumber) with
    | some row => Except.ok row
    | none => Except.error DbError.versionNotFound

/-- restorePromptVersion from db.js.  It resolves the identifier, loads
the target version (rejecting with the version-not-found error when
absent), snapshots the current live row as a new version numbered
target.version_number + 1 with the caller-supplied change_reason stored
verbatim, and then overwrites the live row with the target version
fields.  As in updatePrompt there is no transaction around the INSERT
and the UPDATE. -/
def restorePromptVersion (s : DBState) (versionId : String) (now : Nat)
    (insertStmtFails updateStmtFails : Bool) (idInput : String)
    (versionNumber : Nat) (change_reason : Option String) :
    DBState × Except DbError Prompt :=
  match resolvePromptId s idInput with
  | Except.error e => (s, Except.error e)
  | Except.ok fullId =>
    match getPromptVersion s fullId versionNumber with
    | Except.error e => (s, Except.error e)
    | Except.ok versionToRestore =>
      match getPromptById s fullId with
      | Except.error e => (s, Except.error e)
      | Except.ok current =>
        match insertVersion s insertStmtFails
            { id := versionId, prompt_id := fullId,
              version_number := versionToRestore.version_number + 1,
              title := current.title, content := current.content,
              category := current.category, created_at := now,
              change_reason := change_reason } with
        | Except.error e => (s, Except.error e)
        | Except.ok s1 =>
          if updateStmtFails then (s1, Except.error DbError.sqlError)
          else
            finishWrite
              (overwritePromptRow s1 fullId versionToRestore.title
                versionToRestore.content versionToRestore.category now) fullId

/-!  The local fallback embedding generator of db.js (generateSimpleEmbedding
and hashString).  The Float32Array arithmetic is modelled with exact
rationals; the stream of Math.random() draws made by the initialisation
loop is an explicit argument (one draw per slot, each in the unit
interval), because the source seeds every slot with
(Math.random() - 0.5) * 0.1 before accumulating the text features. -/

/-- Wrap an integer to the signed 32-bit range, as the JavaScript
bitwise operators do. -/
def toInt32 (n : Int) : Int :=
  (n + 2 ^ 31) % 2 ^ 32 - 2 ^ 31

/-- hashString from db.js: hash = ((hash << 5) - hash) + charCode,
truncated to 32 bits at the shift and by the final hash & hash. -/
def hashString (s : String) : Int :=
  s.data.foldl (fun h c => toInt32 (toInt32 (h * 32) - h + (c.toNat : Int))) 0

/-- ASCII lowering of a whole string, the fragment of
String.prototype.toLowerCase relevant to the verified inputs. -/
def asciiLower (s : String) : String :=
  String.mk (s.data.map lowerAscii)

/-- text.split on the whitespace regular expression, with the JavaScript
behaviour that the empty string splits to a singleton list holding the
empty string, a leading separator run yields a leading empty segment and
a trailing run a trailing empty segment.  Written with a structural fuel
argument (the fuel strictly dominates the number of unread characters,
so the zero-fuel branch is unreachable from jsSplitWs below). -/
def jsSplitWsF : Nat → List Char → List Char → List (List Char)
  | 0, _, acc => [acc.reverse]
  | _ + 1, [], acc => [acc.reverse]
  | fuel + 1, c :: cs, acc =>
    if isJsSpace c then acc.reverse :: jsSplitWsF fuel (cs.dropWhile isJsSpace) []
    else jsSplitWsF fuel cs (c :: acc)

/-- text.split on whitespace, as a list of words. -/
def jsSplitWs (s : String) : List String :=
  (jsSplitWsF (s.data.length + 1) s.data []).map String.mk

/-- Pointwise increment of one slot of the 384-dimensional vector:
the JavaScript statement embedding[i] += x. -/
def addAt (v : Fin 384 → ℚ) (i : Fin 384) (x : ℚ) : Fin 384 → ℚ :=
  fun j => if j = i then v j + x else v j

/-- Reduce a natural number modulo 384 to an index. -/
def mkIdx (n : Nat) : Fin 384 :=
  ⟨n % 384, Nat.mod_lt n (by norm_num)⟩

/-- The per-word feature accumulation of generateSimpleEmbedding: the
hash bucket receives 1/(index+1), the next slot the word length times
0.1 and the slot after that the number of distinct characters times
0.2. -/
def wordStep (v : Fin 384 → ℚ) (index : Nat) (w : String) : Fin 384 → ℚ :=
  let pos : Nat := (hashString w).natAbs % 384
  let v1 := addAt v (mkIdx pos) (1 / ((index : ℚ) + 1))
  let v2 := addAt v1 (mkIdx (pos + 1)) ((w.data.length : ℚ) * (1 / 10))
  addAt v2 (mkIdx (pos + 2)) ((w.data.dedup.length : ℚ) * (1 / 5))

/-- The words.forEach loop of generateSimpleEmbedding. -/
def applyWordFeatures : (Fin 384 → ℚ) → Nat → List String → (Fin 384 → ℚ)
  | v, _, [] => v
  | v, index, w :: ws => applyWordFeatures (wordStep v index w) (index + 1) ws

/-- The sentence counter of generateSimpleEmbedding: the number of
characters matched by the period-bang-question regular expression. -/
def sentenceCount (text : String) : Nat :=
  (text.data.filter (fun c => c = '.' ∨ c = '!' ∨ c = '?')).length

/-- The pre-normalisation vector of generateSimpleEmbedding: the random
initialisation (rand i - 0.5) * 0.1 of every slot, then the per-word
features over the lowercased whitespace-split text, then the three
text-level features (length, word count, sentence count). -/
def rawSimpleEmbedding (rand : Fin 384 → ℚ) (text : String) : Fin 384 → ℚ :=
  let words := jsSplitWs (asciiLower text)
  let init : Fin 384 → ℚ := fun i => (rand i - 1 / 2) * (1 / 10)
  let v1 := applyWordFeatures init 0 words
  let v2 := addAt v1 ⟨0, by norm_num⟩ ((text.data.length : ℚ) * (1 / 1000))
  let v3 := addAt v2 ⟨1, by norm_num⟩ ((words.length : ℚ) * (1 / 100))
  addAt v3 ⟨2, by norm_num⟩ ((sentenceCount text : ℚ) * (1 / 10))

/-- The squared Euclidean norm of the accumulated vector, i.e. the value
under the square root in the normalisation step. -/
def embNormSq (v : Fin 384 → ℚ) : ℚ :=
  ∑ i : Fin 384, v i * v i

open Classical in
/-- generateSimpleEmbedding from db.js: accumulate the feature vector
and divide every slot by the Euclidean norm when that norm is positive.
The square root forces this final step into the reals. -/
noncomputable def generateSimpleEmbedding (rand : Fin 384 → ℚ) (text : String) :
    Fin 384 → ℝ :=
  let raw := rawSimpleEmbedding rand text
  let norm : ℝ := Real.sqrt ((embNormSq raw : ℚ) : ℝ)
  if 0 < norm then fun i => (raw i : ℝ) / norm else fun i => (raw i : ℝ)

/-!  The hybrid search merge of db.js (hybridSearch), together with the
semantic search scan it consumes.  The lexical side, ftsSearch, is an
FTS5 SQL query whose output this model takes as an input list: only the
rank order and the row identifiers of the lexical results feed the
merge, so a lexical result is represented by its id.  The sqlite layers
deliver at most one row per prompt id (prompts.id and
prompt_embeddings.prompt_id are primary keys), which the theorems record
as Nodup hypotheses where they need it. -/

/-- A semantic search result: a prompt id with its cosine similarity to
the query embedding. -/
structure SemResult where
  id : String
  similarity : ℚ
deriving DecidableEq

/-- Descending-similarity order used by semanticSearch. -/
def semDescOrder (a b : SemResult) : Prop :=
  b.similarity ≤ a.similarity

instance : DecidableRel semDescOrder := fun a b =>
  inferInstanceAs (Decidable (b.similarity ≤ a.similarity))

/-- semanticSearch from db.js: join the stored embeddings with their
prompts, score every row with the cosine similarity of the query vector
(the similarity function sim is a parameter because the source computes
it with floating-point square roots), sort by similarity descending
(Array.prototype.sort is stable, hence the insertion sort) and keep the
top limit rows. -/
def semanticSearch (sim : List ℚ → List ℚ → ℚ) (queryVec : List ℚ)
    (s : DBState) (limit : Nat) : List SemResult :=
  (List.insertionSort semDescOrder
    ((s.embeddings.filter (fun e => s.prompts.any (fun p => p.id = e.prompt_id))).map
      (fun e => { id := e.prompt_id, similarity := sim queryVec e.vector }))).take limit

/-- An entry of the result map built by hybridSearch.  search_type is
only assigned by the final shaping pass, so it starts out empty. -/
structure HybridResult where
  id : String
  fts_score : ℚ
  semantic_score : ℚ
  search_types : List String
  hybrid_score : ℚ
  search_type : String
deriving DecidableEq

/-- The first loop of hybridSearch: the i-th of the lexical results
(0-indexed, n in total) enters the map with fts_score
1 - i / max(n, 1), semantic_score 0 and hybrid_score
fts_score * ftsWeight. -/
def addFtsResults (ftsWeight : ℚ) (n : Nat) : Nat → List String → List HybridResult
  | _, [] => []
  | i, id :: rest =>
    let normalizedScore : ℚ := 1 - (i : ℚ) / ((max n 1 : Nat) : ℚ)
    { id := id, fts_score := normalizedScore, semantic_score := 0,
      search_types := ["fts"], hybrid_score := normalizedScore * ftsWeight,
      search_type := "" } :: addFtsResults ftsWeight n (i + 1) rest

/-- The second loop of hybridSearch: each semantic result either merges
into the existing entry with its id (recomputing the hybrid score from
both weights) or is appended as a semantic-only entry.  The JavaScript
Map keyed by id is modelled as the association list acc; updates keep
the insertion position, appends go to the back, exactly as Map
iteration order prescribes. -/
def mergeSemanticResults (ftsWeight semanticWeight : ℚ) :
    List HybridResult → List SemResult → List HybridResult
  | acc, [] => acc
  | acc, r :: rs =>
    if acc.any (fun e => e.id = r.id) then
      mergeSemanticResults ftsWeight semanticWeight
        (acc.map (fun e =>
          if e.id = r.id then
            { e with
                semantic_score := r.similarity,
                search_types := e.search_types ++ ["semantic"],
                hybrid_score := e.fts_score * ftsWeight + r.similarity * semanticWeight }
          else e)) rs
    else
      mergeSemanticResults ftsWeight semanticWeight
        (acc ++ [{ id := r.id, fts_score := 0, semantic_score := r.similarity,
                   search_types := ["semantic"],
                   hybrid_score := r.similarity * semanticWeight,
                   search_type := "" }]) rs

/-- Descending-hybrid-score order used by the final sort. -/
def hybridDescOrder (a b : HybridResult) : Prop :=
  b.hybrid_score ≤ a.hybrid_score

instance : DecidableRel hybridDescOrder := fun a b =>
  inferInstanceAs (Decidable (b.hybrid_score ≤ a.hybrid_score))

instance : IsTotal HybridResult hybridDescOrder :=
  ⟨fun a b => le_total b.hybrid_score a.hybrid_score⟩

instance : IsTrans HybridResult hybridDescOrder :=
  ⟨fun _ _ _ h1 h2 => le_trans h2 h1⟩

/-- hybridSearch from db.js, given the two underlying result lists: the
map is filled from the lexical results, merged with the semantic
results, converted to an array sorted by hybrid score descending
(stable, as Array.prototype.sort), truncated to limit, and shaped with
search_type hybrid when a record came from both searches and the single
originating type otherwise. -/
def hybridSearch (ftsResults : List String) (semanticResults : List SemResult)
    (limit : Nat) (ftsWeight semanticWeight : ℚ) : List HybridResult :=
  ((List.insertionSort hybridDescOrder
      (mergeSemanticResults ftsWeight semanticWeight
        (addFtsResults ftsWeight ftsResults.length 0 ftsResults)
        semanticResults)).take limit).map
    (fun r =>
      { r with
          search_type :=
            if r.search_types.length > 1 then "hybrid"
            else r.search_types.headD "" })

/-- The fts_score that the merge assigns to a given id: scan the lexical
result list from rank i upward and return 1 - i / max(n, 1) at the
first hit, 0 when the id is absent. -/
def ftsScoreAux (n : Nat) : Nat → List String → String → ℚ
  | _, [], _ => 0
  | i, x :: xs, id =>
    if x = id then 1 - (i : ℚ) / ((max n 1 : Nat) : ℚ)
    else ftsScoreAux n (i + 1) xs id

/-- Rank-derived lexical score of an id within a lexical result list:
1 - i/N for the 0-indexed rank i among N results, 0 when absent. -/
def ftsScoreOf (ids : List String) (id : String) : ℚ :=
  ftsScoreAux ids.length 0 ids id

/-- Similarity carried by the first semantic result with the given id,
0 when the id is absent from the semantic results. -/
def semScoreOf : List SemResult → String → ℚ
  | [], _ => 0
  | r :: rs, id => if r.id = id then r.similarity else semScoreOf rs id

/-!  Trace semantics and store invariants for the version history. -/

/-- The version numbers currently stored for a prompt, in table order. -/
def versionNumbers (s : DBState) (pid : String) : List Nat :=
  (s.versions.filter (fun v => v.prompt_id = pid)).map (fun v => v.version_number)

/-- Every state reachable from an empty store by the mutating operations
of db.js, under any interleaving of statement successes and failures.
The id arguments of create are fresh uuidv4 strings in the source, which
is reflected by requiring the canonical 36-character, non-whitespace
shape; all other arguments are arbitrary. -/
inductive Reachable : DBState → Prop
  | init : Reachable ⟨[], [], []⟩
  | create {s : DBState} (id versionId : String) (now : Nat) (pf vf : Bool)
      (d : CreateData) (hid : id.length = 36)
      (hws : id.data.all isJsSpace = false) :
      Reachable s → Reachable (createPrompt s id versionId now pf vf d).1
  | update {s : DBState} (versionId : String) (now : Nat) (insF updF : Bool)
      (idInput : String) (d : UpdateData) :
      Reachable s → Reachable (updatePrompt s versionId now insF updF idInput d).1
  | restore {s : DBState} (versionId : String) (now : Nat) (insF updF : Bool)
      (idInput : String) (vn : Nat) (reason : Option String) :
      Reachable s → Reachable (restorePromptVersion s versionId now insF updF idInput vn reason).1
  | del {s : DBState} (idInput : String) :
      Reachable s → Reachable (deletePrompt s idInput).1

/-- Stored prompt ids have the uuid shape that createPrompt gives them. -/
def IdsOk (s : DBState) : Prop :=
  ∀ p ∈ s.prompts, p.id.length = 36 ∧ p.id.data.all isJsSpace = false

/-- The gap-free version-numbering invariant: for every prompt the
stored version numbers are exactly 1, 2, ..., k in table order. -/
def VersionsOk (s : DBState) : Prop :=
  ∀ pid, versionNumbers s pid = List.range' 1 (versionNumbers s pid).length

/-!  Auxiliary specification-side definitions and the concrete stores
used to evaluate the operations on explicit inputs. -/

/-- Equality of database results is decidable componentwise. -/
instance {e a : Type} [DecidableEq e] [DecidableEq a] : DecidableEq (Except e a) :=
  fun x y =>
    match x, y with
    | Except.error e1, Except.error e2 =>
      if h : e1 = e2 then Decidable.isTrue (h ▸ rfl)
      else Decidable.isFalse (fun hc => h (by cases hc; rfl))
    | Except.error _, Except.ok _ => Decidable.isFalse (fun hc => Except.noConfusion hc)
    | Except.ok _, Except.error _ => Decidable.isFalse (fun hc => Except.noConfusion hc)
    | Except.ok a1, Except.ok a2 =>
      if h : a1 = a2 then Decidable.isTrue (h ▸ rfl)
      else Decidable.isFalse (fun hc => h (by cases hc; rfl))

/-- ASCII-case-insensitive starts-with over character lists: the
wildcard-free reading of the LIKE pattern that _resolvePromptId builds
by appending a percent sign to the input. -/
def startsWithCI : List Char → List Char → Bool
  | [], _ => true
  | _ :: _, [] => false
  | c :: cs, d :: ds => lowerAscii c = lowerAscii d && startsWithCI cs ds

/-- True when the input contains no SQLite LIKE metacharacter, so that
LIKE matching coincides with case-insensitive starts-with. -/
def likeLiteral (cs : List Char) : Bool :=
  cs.all (fun c => ¬(c = '%' ∨ c = '_'))

/-- A stream of Math.random draws that all return one half, making the
random initialisation of generateSimpleEmbedding identically zero. -/
def randHalf : Fin 384 → ℚ := fun _ => 1 / 2

/-- A second stream of Math.random draws, differing from randHalf only
in slot three. -/
def randShift : Fin 384 → ℚ := fun i => if i = ⟨3, by norm_num⟩ then 7 / 10 else 1 / 2

/-- A canonical 36-character prompt id. -/
def uuidA : String := "aaaaaaaa-aaaa-aaaa-aaaa-aaaaaaaaaaaa"

/-- A second 36-character identifier. -/
def uuidB : String := "bbbbbbbb-bbbb-bbbb-bbbb-bbbbbbbbbbbb"

/-- A third 36-character identifier. -/
def uuidC : String := "cccccccc-cccc-cccc-cccc-cccccccccccc"

/-- A stored prompt row used by the concrete evaluations. -/
def promptA : Prompt := ⟨uuidA, "T", "C", none, 0, 0⟩

/-- A second stored prompt row. -/
def promptB : Prompt := ⟨uuidB, "T", "C", none, 0, 0⟩

/-- Version 1 of promptA. -/
def versionA1 : PromptVersion := ⟨uuidB, uuidA, 1, "T", "C", none, 0, none⟩

/-- Version 2 of promptA, as written by one update. -/
def versionA2 : PromptVersion := ⟨uuidC, uuidA, 2, "T1", "C1", none, 1, none⟩

/-- A stored embedding row of promptA. -/
def embA : EmbeddingRow := ⟨uuidA, [1], "text-embedding-3-small"⟩

/-- A store holding exactly promptA with no history. -/
def baseState : DBState := ⟨[promptA], [], []⟩

/-- A store holding promptA with versions 1 and 2. -/
def stateTwoVersions : DBState := ⟨[promptA], [versionA1, versionA2], []⟩

/-- A store holding promptA, its version 1 and its embedding row. -/
def stateWithHistory : DBState := ⟨[promptA], [versionA1], [embA]⟩

/-- A store holding two prompts, for the ambiguity evaluations. -/
def statePair : DBState := ⟨[promptA, promptB], [], []⟩

/-- The store reached by one successful createPrompt on the empty
store. -/
def createdState : DBState :=
  (createPrompt ⟨[], [], []⟩ uuidA uuidB 1 false false ⟨"T", "C", none⟩).1

/-- The store left behind when an update of createdState runs its
version INSERT successfully and its live UPDATE statement fails. -/
def updateFaultState : DBState :=
  (updatePrompt createdState uuidC 7 false true uuidA
    ⟨"T2", "C2", none, some "edit"⟩).1

/-- Eleven distinct lexical result ids, more than the default result
limit of hybridSearch. -/
def elevenIds : List String :=
  ["a", "b", "c", "d", "e", "f", "g", "h", "i", "j", "k"]

lemma maxVersionNumber_def (s : DBState) (pid : String) :
    maxVersionNumber s pid = (versionNumbers s pid).foldr max 0 := rfl

lemma le_foldr_max {l : List Nat} {x : Nat} (h : x ∈ l) : x ≤ l.foldr max 0 := by
  induction l with
  | nil => cases h
  | cons a l ih =>
    rcases List.mem_cons.mp h with rfl | h2
    · exact le_max_left _ _
    · exact le_trans (ih h2) (le_max_right _ _)

lemma foldr_max_le {l : List Nat} {m : Nat} (h : ∀ x ∈ l, x ≤ m) :
    l.foldr max 0 ≤ m := by
  induction l with
  | nil => exact Nat.zero_le m
  | cons a l ih =>
    exact max_le (h a (List.mem_cons_self a l)) (ih fun x hx => h x (List.mem_cons_of_mem a hx))

lemma range'_one_concat (k : Nat) :
    List.range' 1 (k + 1) = List.range' 1 k ++ [k + 1] := by
  simpa [Nat.add_comm] using @List.range'_concat 1 1 k

lemma foldr_max_range' (k : Nat) : (List.range' 1 k).foldr max 0 = k := by
  refine le_antisymm (foldr_max_le fun x hx => ?_) ?_
  · have := List.mem_range'_1.mp hx
    omega
  · cases k with
    | zero => exact Nat.zero_le _
    | succ k =>
      exact le_foldr_max (List.mem_range'_1.mpr (by omega))

lemma mem_versionNumbers {s : DBState} {v : PromptVersion} {pid : String}
    (hv : v ∈ s.versions) (hp : v.prompt_id = pid) :
    v.version_number ∈ versionNumbers s pid := by
  simp only [versionNumbers, List.mem_map, List.mem_filter]
  exact ⟨v, ⟨hv, by simp [hp]⟩, rfl⟩

lemma versionConflict_iff_mem {s : DBState} {pid : String} {n : Nat} :
    versionConflict s pid n = true ↔ n ∈ versionNumbers s pid := by
  simp only [versionConflict, versionNumbers, List.any_eq_true, List.mem_map,
    List.mem_filter, Bool.and_eq_true, decide_eq_true_eq]
  constructor
  · rintro ⟨v, hv, h1, h2⟩
    exact ⟨v, ⟨hv, h1⟩, h2⟩
  · rintro ⟨v, ⟨hv, h1⟩, h2⟩
    exact ⟨v, hv, h1, h2⟩

lemma versionNumbers_snoc (s : DBState) (v : PromptVersion) (pid : String) :
    versionNumbers { s with versions := s.versions ++ [v] } pid =
      versionNumbers s pid ++
        (if v.prompt_id = pid then [v.version_number] else []) := by
  by_cases h : v.prompt_id = pid <;>
    simp [versionNumbers, List.filter_append, h]

lemma versionNumbers_ext {s1 s2 : DBState} (h : s1.versions = s2.versions)
    (pid : String) : versionNumbers s1 pid = versionNumbers s2 pid := by
  simp [versionNumbers, h]

lemma versionsOk_of_versions_eq {s1 s2 : DBState}
    (h : s1.versions = s2.versions) (hs : VersionsOk s1) : VersionsOk s2 := by
  intro pid
  rw [← versionNumbers_ext h pid]
  exact hs pid

lemma maxVersionNumber_of_ok {s : DBState} (h : VersionsOk s) (pid : String) :
    maxVersionNumber s pid = (versionNumbers s pid).length := by
  conv_lhs => rw [maxVersionNumber_def, h pid]
  rw [foldr_max_range']

lemma versionsOk_insert {s s2 : DBState} {f : Bool} {v : PromptVersion}
    (hok : VersionsOk s) (hins : insertVersion s f v = Except.ok s2)
    (h1 : 1 ≤ v.version_number)
    (h2 : v.version_number ≤ maxVersionNumber s v.prompt_id + 1) :
    VersionsOk s2 := by
  unfold insertVersion at hins
  split at hins
  · cases hins
  · rename_i hcond
    cases hins
    have hconf : versionConflict s v.prompt_id v.version_number = false := by
      cases hcf : versionConflict s v.prompt_id v.version_number with
      | false => rfl
      | true => simp [hcf] at hcond
    intro pid
    rw [versionNumbers_snoc]
    by_cases hp : v.prompt_id = pid
    · subst hp
      have hk := hok v.prompt_id
      have hmax := maxVersionNumber_of_ok hok v.prompt_id
      have hnotmem : v.version_number ∉ versionNumbers s v.prompt_id := by
        intro hmem
        rw [versionConflict_iff_mem.mpr hmem] at hconf
        cases hconf
      have heq : v.version_number = (versionNumbers s v.prompt_id).length + 1 := by
        have hnot2 : v.version_number ∉
            List.range' 1 (versionNumbers s v.prompt_id).length := by
          rw [← hk]; exact hnotmem
        have hnr : ¬(1 ≤ v.version_number ∧
            v.version_number < 1 + (versionNumbers s v.prompt_id).length) :=
          fun hc => hnot2 (List.mem_range'_1.mpr hc)
        omega
      have hif : (if v.prompt_id = v.prompt_id then [v.version_number] else [])
          = [v.version_number] := if_pos rfl
      rw [hif, List.length_append, List.length_singleton, heq]
      conv_lhs => rw [hk]
      simp only [List.length_range']
      exact (range'_one_concat _).symm
    · simp only [if_neg hp, List.append_nil]
      exact hok pid

lemma insertPrompt_ok {s s1 : DBState} {f : Bool} {p : Prompt}
    (h : insertPrompt s f p = Except.ok s1) :
    s1 = { s with prompts := s.prompts ++ [p] } ∧
      promptIdTaken s p.id = false ∧ f = false := by
  unfold insertPrompt at h
  split at h
  · cases h
  · rename_i hc
    cases h
    simp only [Bool.or_eq_true, not_or, Bool.not_eq_true] at hc
    exact ⟨rfl, hc.2, hc.1⟩

lemma insertVersion_ok {s s2 : DBState} {f : Bool} {v : PromptVersion}
    (h : insertVersion s f v = Except.ok s2) :
    s2 = { s with versions := s.versions ++ [v] } ∧
      versionConflict s v.prompt_id v.version_number = false ∧ f = false := by
  unfold insertVersion at h
  split at h
  · cases h
  · rename_i hc
    cases h
    simp only [Bool.or_eq_true, not_or, Bool.not_eq_true] at hc
    exact ⟨rfl, hc.2, hc.1⟩

lemma selectPromptRow_fst (s : DBState) (id : String) :
    (selectPromptRow s id).1 = s := by
  unfold selectPromptRow
  split <;> rfl

lemma finishWrite_fst (s : DBState) (fullId : String) :
    (finishWrite s fullId).1 = s := by
  unfold finishWrite
  split <;> rfl

lemma overwritePromptRow_versions (s : DBState) (fullId : String)
    (title content : String) (category : Option String) (now : Nat) :
    (overwritePromptRow s fullId title content category now).versions = s.versions := rfl

/-- Forward computation of _resolvePromptId on a stored full-length id:
it succeeds and returns the id itself. -/
lemma resolve_full_ok {s : DBState} {pid : String} {current : Prompt}
    (hlen : pid.length = 36) (hws : pid.data.all isJsSpace = false)
    (hfind : s.prompts.find? (fun p => p.id = pid) = some current) :
    resolvePromptId s pid = Except.ok pid := by
  have h1 := List.find?_some hfind
  simp only [decide_eq_true_eq] at h1
  simp [resolvePromptId, hws, hlen, hfind, h1]

/-- Forward computation of getPromptById on a stored full-length id. -/
lemma getById_full_ok {s : DBState} {pid : String} {current : Prompt}
    (hlen : pid.length = 36) (hws : pid.data.all isJsSpace = false)
    (hfind : s.prompts.find? (fun p => p.id = pid) = some current) :
    getPromptById s pid = Except.ok current := by
  simp [getPromptById, resolve_full_ok hlen hws hfind, hfind]

/-- A successful identifier resolution always returns the id of some
stored prompt row. -/
lemma resolve_ok_mem {s : DBState} {input fid : String}
    (h : resolvePromptId s input = Except.ok fid) :
    ∃ row ∈ s.prompts, row.id = fid := by
  unfold resolvePromptId at h
  split at h
  · cases h
  · split at h
    · rename_i hfind
      split at h
      · rename_i row hrow
        cases h
        exact ⟨row, List.mem_of_find?_eq_some hrow, rfl⟩
      · cases h
    · split at h
      · split at h
        · cases h
        · rename_i row hfilter
          cases h
          have : row ∈ s.prompts.filter
              (fun p => likeMatch (input.data ++ ['%']) p.id.data) := by
            rw [hfilter]; exact List.mem_singleton_self row
          exact ⟨row, (List.mem_filter.mp this).1, rfl⟩
        · cases h
      · cases h

/-- On a store whose ids all have the uuid shape, resolving a stored id
returns that id. -/
lemma resolve_stored_id {s : DBState} {fid : String} (hids : IdsOk s)
    (hmem : ∃ row ∈ s.prompts, row.id = fid) :
    resolvePromptId s fid = Except.ok fid := by
  obtain ⟨row, hrow, hid⟩ := hmem
  have hsome : ∃ r, s.prompts.find? (fun p => p.id = fid) = some r := by
    cases hf : s.prompts.find? (fun p => p.id = fid) with
    | none =>
      rw [List.find?_eq_none] at hf
      exact absurd hid (by simpa using hf row hrow)
    | some r => exact ⟨r, rfl⟩
  obtain ⟨r, hr⟩ := hsome
  obtain ⟨hlen, hws⟩ := hids row hrow
  exact resolve_full_ok (hid ▸ hlen) (hid ▸ hws) hr

/-- Inversion of a successful getPromptVersion: the returned row is a
stored version row of the resolved prompt with the requested number. -/
lemma getPromptVersion_ok {s : DBState} {input : String} {vn : Nat}
    {vtr : PromptVersion} (h : getPromptVersion s input vn = Except.ok vtr) :
    ∃ fid, resolvePromptId s input = Except.ok fid ∧ vtr ∈ s.versions ∧
      vtr.prompt_id = fid ∧ vtr.version_number = vn := by
  unfold getPromptVersion at h
  split at h
  · cases h
  · rename_i fid hres
    split at h
    · rename_i row hrow
      cases h
      have hp := List.find?_some hrow
      simp only [Bool.and_eq_true, decide_eq_true_eq] at hp
      exact ⟨fid, hres, List.mem_of_find?_eq_some hrow, hp.1, hp.2⟩
    · cases h

lemma idsOk_append {s : DBState} (h : IdsOk s) {p : Prompt}
    (h1 : p.id.length = 36) (h2 : p.id.data.all isJsSpace = false) :
    IdsOk { s with prompts := s.prompts ++ [p] } := by
  intro q hq
  rcases List.mem_append.mp hq with hq | hq
  · exact h q hq
  · rw [List.mem_singleton] at hq
    subst hq
    exact ⟨h1, h2⟩

lemma idsOk_overwrite {s : DBState} (h : IdsOk s) (fid t c : String)
    (cat : Option String) (now : Nat) :
    IdsOk (overwritePromptRow s fid t c cat now) := by
  intro p hp
  unfold overwritePromptRow at hp
  simp only [List.mem_map] at hp
  obtain ⟨q, hq, rfl⟩ := hp
  by_cases hcond : q.id = fid
  · simpa [hcond] using h q hq
  · simpa [hcond] using h q hq

lemma versionNumbers_filter_ne (s : DBState) (P : List Prompt)
    (E : List EmbeddingRow) (fid pid : String) :
    versionNumbers ⟨P, s.versions.filter (fun v => v.prompt_id ≠ fid), E⟩ pid =
      if pid = fid then [] else versionNumbers s pid := by
  unfold versionNumbers
  simp only [List.filter_filter]
  by_cases h : pid = fid
  · subst h
    rw [if_pos rfl]
    have hnil : s.versions.filter
        (fun v => decide (v.prompt_id = pid) && decide (v.prompt_id ≠ pid)) = [] := by
      rw [List.filter_eq_nil_iff]
      intro v hv
      by_cases hc : v.prompt_id = pid <;> simp [hc]
    rw [hnil]
    rfl
  · rw [if_neg h]
    congr 1
    apply List.filter_congr
    intro v hv
    by_cases hc : v.prompt_id = pid
    · simp [hc, h]
    · simp [hc]

/-- Every reachable store has uuid-shaped prompt ids and a gap-free,
from-one-ascending run of version numbers for every prompt. -/
theorem reachable_invariants {s : DBState} (h : Reachable s) :
    IdsOk s ∧ VersionsOk s := by
  induction h with
  | init =>
    refine ⟨fun p hp => absurd hp (List.not_mem_nil p), fun pid => ?_⟩
    rfl
  | create id vid now pf vf d hid hws _hr ih =>
    obtain ⟨ihI, ihV⟩ := ih
    unfold createPrompt
    split
    · exact ⟨ihI, ihV⟩
    · rename_i s1 hins
      obtain ⟨hs1, htaken, hpf⟩ := insertPrompt_ok hins
      have hI1 : IdsOk s1 := hs1 ▸ idsOk_append ihI hid hws
      have hV1 : VersionsOk s1 :=
        versionsOk_of_versions_eq (by rw [hs1]) ihV
      split
      · rename_i s2 hins2
        refine ⟨?_, ?_⟩ <;> rw [selectPromptRow_fst]
        · obtain ⟨hs2, hconf, hvf⟩ := insertVersion_ok hins2
          subst hs2
          intro q hq
          exact hI1 q hq
        · exact versionsOk_insert hV1 hins2 (le_refl _)
            (Nat.succ_le_succ (Nat.zero_le _))
      · refine ⟨?_, ?_⟩ <;> rw [selectPromptRow_fst]
        · exact hI1
        · exact hV1
  | update vid now insF updF idInput d _hr ih =>
    obtain ⟨ihI, ihV⟩ := ih
    unfold updatePrompt
    split
    · exact ⟨ihI, ihV⟩
    · rename_i fullId hres
      split
      · exact ⟨ihI, ihV⟩
      · rename_i current hcur
        split
        · exact ⟨ihI, ihV⟩
        · rename_i s1 hins
          obtain ⟨hs1, hconf, hf⟩ := insertVersion_ok hins
          have hI1 : IdsOk s1 := by
            subst hs1
            intro q hq
            exact ihI q hq
          have hV1 : VersionsOk s1 :=
            versionsOk_insert ihV hins (Nat.succ_le_succ (Nat.zero_le _)) (le_refl _)
          split
          · exact ⟨hI1, hV1⟩
          · refine ⟨?_, ?_⟩ <;> rw [finishWrite_fst]
            · exact idsOk_overwrite hI1 _ _ _ _ _
            · exact versionsOk_of_versions_eq
                (overwritePromptRow_versions _ _ _ _ _ _).symm hV1
  | restore vid now insF updF idInput vn reason _hr ih =>
    obtain ⟨ihI, ihV⟩ := ih
    unfold restorePromptVersion
    split
    · exact ⟨ihI, ihV⟩
    · rename_i fullId hres
      split
      · exact ⟨ihI, ihV⟩
      · rename_i vtr hvtr
        split
        · exact ⟨ihI, ihV⟩
        · rename_i current hcur
          split
          · exact ⟨ihI, ihV⟩
          · rename_i s1 hins
            have hself := resolve_stored_id ihI (resolve_ok_mem hres)
            obtain ⟨fid2, hres2, hmem, hpid, hvn⟩ := getPromptVersion_ok hvtr
            rw [hself] at hres2
            have hfid : fid2 = fullId := by
              cases hres2
              rfl
            have hle := le_foldr_max (mem_versionNumbers hmem (by rw [hpid, hfid]))
            rw [← maxVersionNumber_def] at hle
            obtain ⟨hs1, hconf, hf⟩ := insertVersion_ok hins
            have hI1 : IdsOk s1 := by
              subst hs1
              intro q hq
              exact ihI q hq
            have hV1 : VersionsOk s1 :=
              versionsOk_insert ihV hins (Nat.succ_le_succ (Nat.zero_le _))
                (Nat.succ_le_succ hle)
            split
            · exact ⟨hI1, hV1⟩
            · refine ⟨?_, ?_⟩ <;> rw [finishWrite_fst]
              · exact idsOk_overwrite hI1 _ _ _ _ _
              · exact versionsOk_of_versions_eq
                  (overwritePromptRow_versions _ _ _ _ _ _).symm hV1
  | del idInput _hr ih =>
    obtain ⟨ihI, ihV⟩ := ih
    unfold deletePrompt
    split
    · exact ⟨ihI, ihV⟩
    · rename_i fullId hres
      refine ⟨?_, ?_⟩
      · intro q hq
        exact ihI q (List.mem_filter.mp hq).1
      · intro pid
        rw [versionNumbers_filter_ne]
        by_cases h : pid = fullId
        · rw [if_pos h]
          rfl
        · rw [if_neg h]
          exact ihV pid

lemma versionConflict_max_succ (s : DBState) (pid : String) :
    versionConflict s pid (maxVersionNumber s pid + 1) = false := by
  rw [← Bool.not_eq_true]
  intro hc
  have hle := le_foldr_max (versionConflict_iff_mem.mp hc)
  rw [← maxVersionNumber_def] at hle
  omega

lemma insertVersion_no_conflict {s : DBState} {v : PromptVersion}
    (h : versionConflict s v.prompt_id v.version_number = false) :
    insertVersion s false v = Except.ok { s with versions := s.versions ++ [v] } := by
  unfold insertVersion
  rw [h]
  rfl

lemma find?_overwrite {l : List Prompt} {pid : String} {current : Prompt}
    (hfind : l.find? (fun p => p.id = pid) = some current)
    (t c : String) (cat : Option String) (now : Nat) :
    (l.map (fun p =>
        if p.id = pid then
          { p with title := t, content := c, category := cat, updated_at := now }
        else p)).find? (fun p => p.id = pid) =
      some { current with
              title := t, content := c, category := cat,
              updated_at := now } := by
  rw [List.find?_map]
  have hcomp : ((fun p : Prompt => decide (p.id = pid)) ∘ (fun p : Prompt =>
      if p.id = pid then
        { p with title := t, content := c, category := cat, updated_at := now }
      else p)) = fun p : Prompt => decide (p.id = pid) := by
    funext p
    by_cases hc : p.id = pid <;> simp [hc]
  rw [hcomp, hfind]
  have hid := List.find?_some hfind
  simp only [decide_eq_true_eq] at hid
  simp [hid]

lemma overwrite_getById {s : DBState} {pid : String} {current : Prompt}
    (hlen : pid.length = 36) (hws : pid.data.all isJsSpace = false)
    (hfind : s.prompts.find? (fun p => p.id = pid) = some current)
    (t c : String) (cat : Option String) (now : Nat) :
    getPromptById (overwritePromptRow s pid t c cat now) pid =
      Except.ok { current with
                   title := t, content := c, category := cat,
                   updated_at := now } :=
  getById_full_ok hlen hws (find?_overwrite hfind t c cat now)

/-- Forward characterisation of updatePrompt on a stored full id with
both SQL statements succeeding: the pre-update snapshot is appended as
version max+1 and the live row is overwritten. -/
lemma updatePrompt_ok_spec {s : DBState} {pid : String} {current : Prompt}
    (hlen : pid.length = 36) (hws : pid.data.all isJsSpace = false)
    (hfind : s.prompts.find? (fun p => p.id = pid) = some current)
    (vid : String) (now : Nat) (d : UpdateData) :
    updatePrompt s vid now false false pid d =
      (overwritePromptRow
        { s with versions := s.versions ++
            [{ id := vid, prompt_id := pid,
               version_number := maxVersionNumber s pid + 1,
               title := current.title, content := current.content,
               category := current.category, created_at := now,
               change_reason := some (jsStringOr d.change_reason "Updated prompt") }] }
        pid d.title d.content d.category now,
       Except.ok { current with
                    title := d.title, content := d.content,
                    category := d.category, updated_at := now }) := by
  have hins := @insertVersion_no_conflict s
    { id := vid, prompt_id := pid,
      version_number := maxVersionNumber s pid + 1,
      title := current.title, content := current.content,
      category := current.category, created_at := now,
      change_reason := some (jsStringOr d.change_reason "Updated prompt") }
    (versionConflict_max_succ s pid)
  have hover := @overwrite_getById
    { s with versions := s.versions ++
        [{ id := vid, prompt_id := pid,
           version_number := maxVersionNumber s pid + 1,
           title := current.title, content := current.content,
           category := current.category, created_at := now,
           change_reason := some (jsStringOr d.change_reason "Updated prompt") }] }
    pid current hlen hws hfind d.title d.content d.category now
  simp only [updatePrompt, resolve_full_ok hlen hws hfind,
    getById_full_ok hlen hws hfind, hins, finishWrite, hover,
    Bool.false_eq_true, if_false]

lemma getPromptVersions_ok {s : DBState} {input : String}
    {l : List PromptVersion} (h : getPromptVersions s input = Except.ok l) :
    ∃ fid, resolvePromptId s input = Except.ok fid ∧
      l.length = (versionNumbers s fid).length := by
  unfold getPromptVersions at h
  split at h
  · cases h
  · rename_i fid hres
    cases h
    refine ⟨fid, hres, ?_⟩
    rw [(List.perm_insertionSort versionDescOrder _).length_eq]
    simp [versionNumbers]

/-- Claim C3: for every reachable store and every prompt, the stored
version numbers form the gap-free, strictly ascending run 1, 2, ..., k
(no duplicates, no gaps); a successful getPromptVersions call reports
exactly that many records for the resolved prompt; and every successful
updatePrompt on a stored prompt appends exactly one version record,
numbered one past the current run. -/
theorem version_numbers_gap_free (s : DBState) (h : Reachable s) (pid : String) :
    versionNumbers s pid = List.range' 1 ((versionNumbers s pid).length) ∧
    (∀ input l, getPromptVersions s input = Except.ok l →
      ∃ fid, resolvePromptId s input = Except.ok fid ∧
        l.length = (versionNumbers s fid).length) ∧
    (∀ current vid now d, pid.length = 36 → pid.data.all isJsSpace = false →
      s.prompts.find? (fun p => p.id = pid) = some current →
      versionNumbers (updatePrompt s vid now false false pid d).1 pid =
        versionNumbers s pid ++ [(versionNumbers s pid).length + 1] ∧
      ∃ q, (updatePrompt s vid now false false pid d).2 = Except.ok q) := by
  obtain ⟨hI, hV⟩ := reachable_invariants h
  refine ⟨hV pid, fun input l hl => getPromptVersions_ok hl, ?_⟩
  intro current vid now d hlen hws hfind
  rw [updatePrompt_ok_spec hlen hws hfind vid now d]
  refine ⟨?_, ⟨_, rfl⟩⟩
  rw [versionNumbers_ext (overwritePromptRow_versions _ _ _ _ _ _) pid,
    versionNumbers_snoc]
  have hif : (if pid = pid then
      [maxVersionNumber s pid + 1] else ([] : List Nat)) =
      [maxVersionNumber s pid + 1] := if_pos rfl
  rw [hif, maxVersionNumber_of_ok hV pid]

/-- Concrete instantiation of version_numbers_gap_free after one create
on the empty store. -/
theorem version_numbers_gap_free_witness :
    versionNumbers
        (createPrompt ⟨[], [], []⟩ "aaaaaaaa-aaaa-aaaa-aaaa-aaaaaaaaaaaa"
          "bbbbbbbb-bbbb-bbbb-bbbb-bbbbbbbbbbbb" 1 false false
          ⟨"T", "C", none⟩).1 "aaaaaaaa-aaaa-aaaa-aaaa-aaaaaaaaaaaa" =
      List.range' 1 ((versionNumbers
        (createPrompt ⟨[], [], []⟩ "aaaaaaaa-aaaa-aaaa-aaaa-aaaaaaaaaaaa"
          "bbbbbbbb-bbbb-bbbb-bbbb-bbbbbbbbbbbb" 1 false false
          ⟨"T", "C", none⟩).1 "aaaaaaaa-aaaa-aaaa-aaaa-aaaaaaaaaaaa").length) :=
  (version_numbers_gap_free _
    (Reachable.create "aaaaaaaa-aaaa-aaaa-aaaa-aaaaaaaaaaaa"
      "bbbbbbbb-bbbb-bbbb-bbbb-bbbbbbbbbbbb" 1 false false
      ⟨"T", "C", none⟩ (by decide) (by decide) Reachable.init)
    "aaaaaaaa-aaaa-aaaa-aaaa-aaaaaaaaaaaa").1

/-- Claim C4 (amended): updatePrompt on a stored prompt writes a
PromptVersion numbered max existing version plus one (0 when none),
snapshotting the pre-update title, content and category, with
change_reason equal to the given reason except that an absent or empty
reason is replaced by the default string Updated prompt (the JavaScript
or-operator treats the empty string as absent); it then overwrites the
live row with the new fields and sets updated_at to the current time,
resolving with the updated row.  The embedding table is untouched by the
call itself. -/
theorem update_prompt_spec (s : DBState) (pid : String) (current : Prompt)
    (vid : String) (now : Nat) (d : UpdateData)
    (hlen : pid.length = 36) (hws : pid.data.all isJsSpace = false)
    (hfind : s.prompts.find? (fun p => p.id = pid) = some current) :
    (updatePrompt s vid now false false pid d).2 =
      Except.ok { current with
                   title := d.title, content := d.content,
                   category := d.category, updated_at := now } ∧
    (updatePrompt s vid now false false pid d).1.versions =
      s.versions ++
        [{ id := vid, prompt_id := pid,
           version_number := maxVersionNumber s pid + 1,
           title := current.title, content := current.content,
           category := current.category, created_at := now,
           change_reason := some (jsStringOr d.change_reason "Updated prompt") }] ∧
    (updatePrompt s vid now false false pid d).1.prompts =
      s.prompts.map (fun p =>
        if p.id = pid then
          { p with
              title := d.title, content := d.content,
              category := d.category, updated_at := now }
        else p) ∧
    (updatePrompt s vid now false false pid d).1.embeddings = s.embeddings := by
  rw [updatePrompt_ok_spec hlen hws hfind vid now d]
  exact ⟨rfl, rfl, rfl, rfl⟩

/-- Concrete instantiation of update_prompt_spec on a one-prompt
store. -/
theorem update_prompt_spec_witness :
    (uuidA.length = 36 ∧ uuidA.data.all isJsSpace = false ∧
      baseState.prompts.find? (fun p => p.id = uuidA) = some promptA) ∧
    (updatePrompt baseState uuidC 5 false false uuidA
        ⟨"T2", "C2", none, some "edit"⟩).2 =
      Except.ok { promptA with
                   title := "T2", content := "C2",
                   category := none, updated_at := 5 } :=
  ⟨⟨by decide, by decide, by decide⟩,
    (update_prompt_spec baseState uuidA promptA uuidC 5
      ⟨"T2", "C2", none, some "edit"⟩ (by decide) (by decide) (by decide)).1⟩

/-- Claim C4, counterexample to the claim as stated: when the caller
passes the empty string as change_reason, the stored version record
carries the default Updated prompt, not the given (empty) reason, while
the update itself succeeds. -/
theorem update_empty_reason_default :
    ((updatePrompt baseState uuidC 5 false false uuidA
        ⟨"T2", "C2", none, some ""⟩).1.versions.map
      (fun v => v.change_reason)) = [some "Updated prompt"] ∧
    (updatePrompt baseState uuidC 5 false false uuidA
        ⟨"T2", "C2", none, some ""⟩).2 =
      Except.ok { promptA with
                   title := "T2", content := "C2",
                   category := none, updated_at := 5 } ∧
    some "Updated prompt" ≠ (some "" : Option String) := by
  refine ⟨by decide, by decide, by decide⟩

lemma insertVersion_fails (s : DBState) (v : PromptVersion) :
    insertVersion s true v = Except.error DbError.sqlError := rfl

lemma getVersion_full_ok {s : DBState} {pid : String} {vn : Nat}
    {vtr : PromptVersion} {current : Prompt}
    (hlen : pid.length = 36) (hws : pid.data.all isJsSpace = false)
    (hfind : s.prompts.find? (fun p => p.id = pid) = some current)
    (hfindV : s.versions.find? (fun v =>
        v.prompt_id = pid && v.version_number = vn) = some vtr) :
    getPromptVersion s pid vn = Except.ok vtr := by
  simp [getPromptVersion, resolve_full_ok hlen hws hfind, hfindV]

/-- Claim C1 (amended): the version INSERT and the live UPDATE of
updatePrompt and restorePromptVersion are separate statements with no
enclosing transaction.  A failure of the INSERT aborts the operation
with the store unchanged, but a failure of the UPDATE after a
successful INSERT aborts the operation with the freshly inserted
version record left in the store and the live prompt unchanged. -/
theorem update_restore_failure_unit_spec (s : DBState) (pid : String)
    (current : Prompt) (vid : String) (now : Nat) (d : UpdateData)
    (vn : Nat) (vtr : PromptVersion) (reason : Option String)
    (hlen : pid.length = 36) (hws : pid.data.all isJsSpace = false)
    (hfind : s.prompts.find? (fun p => p.id = pid) = some current) :
    (∀ f2, updatePrompt s vid now true f2 pid d =
      (s, Except.error DbError.sqlError)) ∧
    updatePrompt s vid now false true pid d =
      ({ s with versions := s.versions ++
          [{ id := vid, prompt_id := pid,
             version_number := maxVersionNumber s pid + 1,
             title := current.title, content := current.content,
             category := current.category, created_at := now,
             change_reason := some (jsStringOr d.change_reason "Updated prompt") }] },
        Except.error DbError.sqlError) ∧
    (s.versions.find? (fun v =>
        v.prompt_id = pid && v.version_number = vn) = some vtr →
      restorePromptVersion s vid now true false pid vn reason =
        (s, Except.error DbError.sqlError) ∧
      (versionConflict s pid (vtr.version_number + 1) = false →
        restorePromptVersion s vid now false true pid vn reason =
          ({ s with versions := s.versions ++
              [{ id := vid, prompt_id := pid,
                 version_number := vtr.version_number + 1,
                 title := current.title, content := current.content,
                 category := current.category, created_at := now,
                 change_reason := reason }] },
            Except.error DbError.sqlError))) := by
  refine ⟨?_, ?_, ?_⟩
  · intro f2
    simp [updatePrompt, resolve_full_ok hlen hws hfind,
      getById_full_ok hlen hws hfind, insertVersion_fails]
  · have hins := @insertVersion_no_conflict s
      { id := vid, prompt_id := pid,
        version_number := maxVersionNumber s pid + 1,
        title := current.title, content := current.content,
        category := current.category, created_at := now,
        change_reason := some (jsStringOr d.change_reason "Updated prompt") }
      (versionConflict_max_succ s pid)
    simp [updatePrompt, resolve_full_ok hlen hws hfind,
      getById_full_ok hlen hws hfind, hins]
  · intro hfv
    refine ⟨?_, ?_⟩
    · simp [restorePromptVersion, resolve_full_ok hlen hws hfind,
        getVersion_full_ok hlen hws hfind hfv,
        getById_full_ok hlen hws hfind, insertVersion_fails]
    · intro hconf
      have hins := @insertVersion_no_conflict s
        { id := vid, prompt_id := pid,
          version_number := vtr.version_number + 1,
          title := current.title, content := current.content,
          category := current.category, created_at := now,
          change_reason := reason }
        hconf
      simp [restorePromptVersion, resolve_full_ok hlen hws hfind,
        getVersion_full_ok hlen hws hfind hfv,
        getById_full_ok hlen hws hfind, hins]

/-- Concrete instantiation of update_restore_failure_unit_spec: on a
prompt with versions 1 and 2, an update whose UPDATE statement fails
leaves the snapshot version behind and reports the error. -/
theorem update_restore_failure_unit_spec_witness :
    (uuidA.length = 36 ∧ uuidA.data.all isJsSpace = false ∧
      stateTwoVersions.prompts.find? (fun p => p.id = uuidA) = some promptA) ∧
    updatePrompt stateTwoVersions uuidB 9 false true uuidA
        ⟨"T2", "C2", none, none⟩ =
      ({ stateTwoVersions with versions := stateTwoVersions.versions ++
          [{ id := uuidB, prompt_id := uuidA,
             version_number := maxVersionNumber stateTwoVersions uuidA + 1,
             title := promptA.title, content := promptA.content,
             category := promptA.category, created_at := 9,
             change_reason := some (jsStringOr none "Updated prompt") }] },
        Except.error DbError.sqlError) :=
  ⟨⟨by decide, by decide, by decide⟩,
    (update_restore_failure_unit_spec stateTwoVersions uuidA promptA uuidB 9
      ⟨"T2", "C2", none, none⟩ 2 versionA2 none
      (by decide) (by decide) (by decide)).2.1⟩

/-- Claim C1, counterexample to the claim as stated: a reachable store
in which the new version record exists while the live prompt is
unchanged.  One successful create is followed by an update whose live
UPDATE statement fails after its snapshot INSERT succeeded: the
operation rejects, the prompt rows are untouched, and version 2 has
nevertheless been persisted. -/
theorem update_fault_leaves_version_row :
    Reachable updateFaultState ∧
    updateFaultState.prompts = createdState.prompts ∧
    versionNumbers createdState uuidA = [1] ∧
    versionNumbers updateFaultState uuidA = [1, 2] ∧
    (updatePrompt createdState uuidC 7 false true uuidA
        ⟨"T2", "C2", none, some "edit"⟩).2 = Except.error DbError.sqlError :=
  ⟨Reachable.update uuidC 7 false true uuidA ⟨"T2", "C2", none, some "edit"⟩
      (Reachable.create uuidA uuidB 1 false false ⟨"T", "C", none⟩
        (by decide) (by decide) Reachable.init),
    by decide, by decide, by decide, by decide⟩

lemma getVersion_full_none {s : DBState} {pid : String} {vn : Nat}
    {current : Prompt}
    (hlen : pid.length = 36) (hws : pid.data.all isJsSpace = false)
    (hfind : s.prompts.find? (fun p => p.id = pid) = some current)
    (hnone : s.versions.find? (fun v =>
        v.prompt_id = pid && v.version_number = vn) = none) :
    getPromptVersion s pid vn = Except.error DbError.versionNotFound := by
  simp [getPromptVersion, resolve_full_ok hlen hws hfind, hnone]

/-- Claim C2 (amended): when the target version v exists for a stored
prompt and the slot v+1 is still free in the UNIQUE(prompt_id,
version_number) constraint (in particular whenever v is the latest
version), restorePromptVersion succeeds, appends a new version
numbered v+1 snapshotting the pre-restore title, content and category
with the caller-supplied reason stored verbatim, and overwrites the
live row with version v fields; when the slot v+1 is taken the INSERT
violates the constraint and the whole call fails; when no version v
exists the call fails with the version-not-found error and the store
is unchanged. -/
theorem restore_version_spec (s : DBState) (pid : String) (current : Prompt)
    (vid : String) (now : Nat) (vn : Nat) (reason : Option String)
    (hlen : pid.length = 36) (hws : pid.data.all isJsSpace = false)
    (hfind : s.prompts.find? (fun p => p.id = pid) = some current) :
    (∀ vtr, s.versions.find? (fun v =>
        v.prompt_id = pid && v.version_number = vn) = some vtr →
      versionConflict s pid (vtr.version_number + 1) = false →
      (restorePromptVersion s vid now false false pid vn reason).2 =
        Except.ok { current with
                     title := vtr.title, content := vtr.content,
                     category := vtr.category, updated_at := now } ∧
      (restorePromptVersion s vid now false false pid vn reason).1.versions =
        s.versions ++
          [{ id := vid, prompt_id := pid,
             version_number := vtr.version_number + 1,
             title := current.title, content := current.content,
             category := current.category, created_at := now,
             change_reason := reason }] ∧
      (restorePromptVersion s vid now false false pid vn reason).1.prompts =
        s.prompts.map (fun p =>
          if p.id = pid then
            { p with
                title := vtr.title, content := vtr.content,
                category := vtr.category, updated_at := now }
          else p)) ∧
    (s.versions.find? (fun v =>
        v.prompt_id = pid && v.version_number = vn) = none →
      restorePromptVersion s vid now false false pid vn reason =
        (s, Except.error DbError.versionNotFound)) := by
  constructor
  · intro vtr hfv hconf
    have hins := @insertVersion_no_conflict s
      { id := vid, prompt_id := pid,
        version_number := vtr.version_number + 1,
        title := current.title, content := current.content,
        category := current.category, created_at := now,
        change_reason := reason } hconf
    have hover := @overwrite_getById
      { s with versions := s.versions ++
          [{ id := vid, prompt_id := pid,
             version_number := vtr.version_number + 1,
             title := current.title, content := current.content,
             category := current.category, created_at := now,
             change_reason := reason }] }
      pid current hlen hws hfind vtr.title vtr.content vtr.category now
    have hpair : restorePromptVersion s vid now false false pid vn reason =
        (overwritePromptRow
          { s with versions := s.versions ++
              [{ id := vid, prompt_id := pid,
                 version_number := vtr.version_number + 1,
                 title := current.title, content := current.content,
                 category := current.category, created_at := now,
                 change_reason := reason }] }
          pid vtr.title vtr.content vtr.category now,
         Except.ok { current with
                      title := vtr.title, content := vtr.content,
                      category := vtr.category, updated_at := now }) := by
      simp only [restorePromptVersion, resolve_full_ok hlen hws hfind,
        getVersion_full_ok hlen hws hfind hfv, getById_full_ok hlen hws hfind,
        hins, finishWrite, hover, Bool.false_eq_true, if_false]
    rw [hpair]
    exact ⟨rfl, rfl, rfl⟩
  · intro hnone
    simp [restorePromptVersion, resolve_full_ok hlen hws hfind,
      getVersion_full_none hlen hws hfind hnone]

/-- Concrete instantiation of restore_version_spec: restoring the only
version of a one-version prompt succeeds and reinstates its fields. -/
theorem restore_version_spec_witness :
    (uuidA.length = 36 ∧ uuidA.data.all isJsSpace = false ∧
      stateWithHistory.prompts.find? (fun p => p.id = uuidA) = some promptA ∧
      stateWithHistory.versions.find? (fun v =>
        v.prompt_id = uuidA && v.version_number = 1) = some versionA1 ∧
      versionConflict stateWithHistory uuidA (versionA1.version_number + 1) = false) ∧
    (restorePromptVersion stateWithHistory uuidC 9 false false uuidA 1 none).2 =
      Except.ok { promptA with
                   title := versionA1.title, content := versionA1.content,
                   category := versionA1.category, updated_at := 9 } :=
  ⟨⟨by decide, by decide, by decide, by decide, by decide⟩,
    ((restore_version_spec stateWithHistory uuidA promptA uuidC 9 1 none
      (by decide) (by decide) (by decide)).1 versionA1
      (by decide) (by decide)).1⟩

/-- Claim C2, counterexample to the claim as stated: restoring version
1 of a prompt that already has a version 2 fails (the INSERT of the
snapshot as version 1+1 collides with the UNIQUE(prompt_id,
version_number) constraint) and mutates nothing, although version 1
exists. -/
theorem restore_old_version_fails :
    stateTwoVersions.versions.find? (fun v =>
        v.prompt_id = uuidA && v.version_number = 1) = some versionA1 ∧
    restorePromptVersion stateTwoVersions uuidB 9 false false uuidA 1 none =
      (stateTwoVersions, Except.error DbError.sqlError) :=
  ⟨by decide, by decide⟩

lemma resolve_full_notFound {s : DBState} {pid : String}
    (hlen : pid.length = 36) (hws : pid.data.all isJsSpace = false)
    (hnone : s.prompts.find? (fun p => p.id = pid) = none) :
    resolvePromptId s pid = Except.error DbError.notFound := by
  simp [resolvePromptId, hws, hlen, hnone]

lemma find?_filter_ne (l : List Prompt) (pid : String) :
    (l.filter (fun p => p.id ≠ pid)).find? (fun p => p.id = pid) = none := by
  rw [List.find?_eq_none]
  intro p hp
  have := (List.mem_filter.mp hp).2
  simp only [ne_eq, decide_not, Bool.not_eq_eq_eq_not, Bool.not_true,
    decide_eq_false_iff_not] at this
  simp [this]

/-- Claim C9 (amended): deletePrompt on a stored prompt succeeds with
true and cascade-deletes the version and embedding rows of that prompt
(no row with its prompt_id remains); afterwards getPromptById on the
same identifier fails with the not-found error, and getPromptVersions
on the same identifier also fails with the not-found error, because it
resolves the identifier before reading the (now empty) history. -/
theorem deletePrompt_cascade_spec (s : DBState) (pid : String)
    (current : Prompt)
    (hlen : pid.length = 36) (hws : pid.data.all isJsSpace = false)
    (hfind : s.prompts.find? (fun p => p.id = pid) = some current) :
    (deletePrompt s pid).2 = Except.ok true ∧
    (deletePrompt s pid).1.versions.filter (fun v => v.prompt_id = pid) = [] ∧
    (deletePrompt s pid).1.embeddings.filter (fun e => e.prompt_id = pid) = [] ∧
    getPromptById (deletePrompt s pid).1 pid = Except.error DbError.notFound ∧
    getPromptVersions (deletePrompt s pid).1 pid =
      Except.error DbError.notFound := by
  have hid := List.find?_some hfind
  simp only [decide_eq_true_eq] at hid
  have hres := resolve_full_ok hlen hws hfind
  have hpair : deletePrompt s pid =
      ({ prompts := s.prompts.filter (fun p => p.id ≠ pid),
         versions := s.versions.filter (fun v => v.prompt_id ≠ pid),
         embeddings := s.embeddings.filter (fun e => e.prompt_id ≠ pid) },
       Except.ok (s.prompts.any (fun p => p.id = pid))) := by
    simp only [deletePrompt, hres]
  have hres2 : resolvePromptId
      ({ prompts := s.prompts.filter (fun p => p.id ≠ pid),
         versions := s.versions.filter (fun v => v.prompt_id ≠ pid),
         embeddings := s.embeddings.filter (fun e => e.prompt_id ≠ pid) } :
        DBState) pid = Except.error DbError.notFound :=
    resolve_full_notFound hlen hws (find?_filter_ne s.prompts pid)
  rw [hpair]
  refine ⟨?_, ?_, ?_, ?_, ?_⟩
  · have hany : s.prompts.any (fun p => p.id = pid) = true :=
      List.any_eq_true.mpr
        ⟨current, List.mem_of_find?_eq_some hfind, by simp [hid]⟩
    simp [hany]
  · rw [List.filter_filter, List.filter_eq_nil_iff]
    intro v hv
    by_cases hc : v.prompt_id = pid <;> simp [hc]
  · rw [List.filter_filter, List.filter_eq_nil_iff]
    intro e he
    by_cases hc : e.prompt_id = pid <;> simp [hc]
  · have hres3 := hres2
    simp only [ne_eq, decide_not] at hres3
    simp [getPromptById, hres3]
  · have hres3 := hres2
    simp only [ne_eq, decide_not] at hres3
    simp [getPromptVersions, hres3]

/-- Concrete instantiation of deletePrompt_cascade_spec on a store with
one prompt, one version row and one embedding row. -/
theorem deletePrompt_cascade_spec_witness :
    (uuidA.length = 36 ∧ uuidA.data.all isJsSpace = false ∧
      stateWithHistory.prompts.find? (fun p => p.id = uuidA) = some promptA) ∧
    getPromptVersions (deletePrompt stateWithHistory uuidA).1 uuidA =
      Except.error DbError.notFound :=
  ⟨⟨by decide, by decide, by decide⟩,
    (deletePrompt_cascade_spec stateWithHistory uuidA promptA
      (by decide) (by decide) (by decide)).2.2.2.2⟩

/-- Claim C9, counterexample to the claim as stated: after deleting a
prompt, getPromptVersions on its identifier does not return the empty
list; identifier resolution fails first and the call rejects with the
not-found error. -/
theorem getPromptVersions_after_delete_errors :
    getPromptVersions (deletePrompt stateWithHistory uuidA).1 uuidA =
      Except.error DbError.notFound ∧
    getPromptVersions (deletePrompt stateWithHistory uuidA).1 uuidA ≠
      Except.ok [] :=
  ⟨by decide, by decide⟩

lemma insertPrompt_free {s : DBState} {p : Prompt}
    (h : promptIdTaken s p.id = false) :
    insertPrompt s false p = Except.ok { s with prompts := s.prompts ++ [p] } := by
  unfold insertPrompt
  rw [h]
  rfl

lemma find?_append_fresh {s : DBState} {p : Prompt}
    (hfree : promptIdTaken s p.id = false) :
    (s.prompts ++ [p]).find? (fun q => q.id = p.id) = some p := by
  rw [List.find?_append]
  have h1 : s.prompts.find? (fun q => q.id = p.id) = none := by
    rw [List.find?_eq_none]
    intro q hq
    have := List.any_eq_false.mp hfree q hq
    simpa using this
  rw [h1]
  simp [List.find?]

/-- Claim C10: createPrompt with a fresh id whose prompt INSERT
succeeds but whose baseline version-1 INSERT fails still resolves
successfully with the created prompt row (the version failure is only
logged), leaving a persisted prompt whose version history is empty:
create is not atomic with respect to its baseline version record. -/
theorem createPrompt_survives_version_failure (s : DBState)
    (id vid : String) (now : Nat) (d : CreateData)
    (hfree : promptIdTaken s id = false) :
    createPrompt s id vid now false true d =
      ({ s with prompts := s.prompts ++
          [{ id := id, title := d.title, content := d.content,
             category := d.category, created_at := now, updated_at := now }] },
       Except.ok { id := id, title := d.title, content := d.content,
                   category := d.category, created_at := now,
                   updated_at := now }) ∧
    (createPrompt s id vid now false true d).1.versions = s.versions := by
  have hip := @insertPrompt_free s
    { id := id, title := d.title, content := d.content,
      category := d.category, created_at := now, updated_at := now } hfree
  have hfind2 := @find?_append_fresh s
    { id := id, title := d.title, content := d.content,
      category := d.category, created_at := now, updated_at := now } hfree
  have hpair : createPrompt s id vid now false true d =
      ({ s with prompts := s.prompts ++
          [{ id := id, title := d.title, content := d.content,
             category := d.category, created_at := now, updated_at := now }] },
       Except.ok { id := id, title := d.title, content := d.content,
                   category := d.category, created_at := now,
                   updated_at := now }) := by
    simp only [createPrompt, hip, insertVersion_fails, selectPromptRow, hfind2]
  rw [hpair]
  exact ⟨rfl, rfl⟩

/-- Concrete instantiation of createPrompt_survives_version_failure on
a one-prompt store: the new prompt is persisted with no version rows. -/
theorem createPrompt_survives_version_failure_witness :
    promptIdTaken baseState uuidB = false ∧
    (createPrompt baseState uuidB uuidC 3 false true
      ⟨"T2", "C2", none⟩).1.versions = baseState.versions :=
  ⟨by decide,
    (createPrompt_survives_version_failure baseState uuidB uuidC 3
      ⟨"T2", "C2", none⟩ (by decide)).2⟩

lemma likeMatchF_pct (ds : List Char) : ∀ fuel, 1 + ds.length < fuel →
    likeMatchF fuel ['%'] ds = true := by
  induction ds with
  | nil =>
    intro fuel hf
    match fuel, hf with
    | f + 1, hf =>
      have hf2 : 0 < f := by omega
      match f, hf2 with
      | f2 + 1, _ => rfl
  | cons d tail ih =>
    intro fuel hf
    match fuel, hf with
    | f + 1, hf =>
      have htail : likeMatchF f ['%'] tail = true := ih f (by simp at hf; omega)
      have hnil : likeMatchF f [] (d :: tail) = false := by
        match f with
        | 0 => rfl
        | f2 + 1 => rfl
      simp [likeMatchF, hnil, htail]

lemma like_literal_startsWith (cs : List Char) : ∀ ds fuel,
    cs.length + ds.length + 1 < fuel → likeLiteral cs = true →
    likeMatchF fuel (cs ++ ['%']) ds = startsWithCI cs ds := by
  induction cs with
  | nil =>
    intro ds fuel hf _
    simp only [List.nil_append, startsWithCI]
    exact likeMatchF_pct ds fuel (by simp at hf; omega)
  | cons c cs ih =>
    intro ds fuel hf hlit
    have hlit2 : likeLiteral cs = true := by
      simp only [likeLiteral, List.all_cons, Bool.and_eq_true] at hlit
      exact hlit.2
    have hc : ¬(c = '%' ∨ c = '_') := by
      simp only [likeLiteral, List.all_cons, Bool.and_eq_true,
        decide_eq_true_eq] at hlit
      exact hlit.1
    have hcp : ¬(c = '%') := fun h => hc (Or.inl h)
    have hcu : ¬(c = '_') := fun h => hc (Or.inr h)
    match fuel, hf with
    | f + 1, hf =>
      cases ds with
      | nil =>
        simp only [List.cons_append, likeMatchF, if_neg hcp, startsWithCI]
      | cons d ds2 =>
        have hrec := ih ds2 f (by simp at hf ⊢; omega) hlit2
        simp only [List.cons_append, likeMatchF, if_neg hcp, if_neg hcu,
          startsWithCI]
        have happ : cs.append ['%'] = cs ++ ['%'] := rfl
        rw [happ, hrec]

/-- On a wildcard-free input, the LIKE pattern that _resolvePromptId
builds is exactly ASCII-case-insensitive starts-with. -/
lemma likeMatch_literal (cs ds : List Char) (h : likeLiteral cs = true) :
    likeMatch (cs ++ ['%']) ds = startsWithCI cs ds := by
  unfold likeMatch
  apply like_literal_startsWith cs ds _ _ h
  simp only [List.length_append, List.length_singleton]
  omega

/-- Claim C8 (amended): identifier resolution rejects empty or
whitespace-only input with the invalid-input error before any table
access; a 36-character input resolves to the stored record with exactly
that id and fails with not-found when absent; a shorter input is
matched as a SQL LIKE pattern with a trailing percent sign, which on a
wildcard-free input means ASCII-case-insensitive starts-with: exactly
one matching record resolves to it, two or more fail with the
ambiguity error and zero fail with not-found.  The model is a pure
function of the store, so resolution cannot mutate it. -/
theorem resolvePromptId_spec (s : DBState) (input : String) :
    (input.data.all isJsSpace = true →
      resolvePromptId s input = Except.error DbError.invalidInput) ∧
    (input.data.all isJsSpace = false → input.length = 36 →
      ((∃ p ∈ s.prompts, p.id = input) →
        resolvePromptId s input = Except.ok input) ∧
      ((∀ p ∈ s.prompts, p.id ≠ input) →
        resolvePromptId s input = Except.error DbError.notFound)) ∧
    (input.data.all isJsSpace = false → input.length < 36 →
      likeLiteral input.data = true →
      (s.prompts.filter (fun p => startsWithCI input.data p.id.data) = [] →
        resolvePromptId s input = Except.error DbError.notFound) ∧
      (∀ p, s.prompts.filter (fun p2 => startsWithCI input.data p2.id.data) = [p] →
        resolvePromptId s input = Except.ok p.id) ∧
      (2 ≤ (s.prompts.filter (fun p => startsWithCI input.data p.id.data)).length →
        resolvePromptId s input = Except.error DbError.ambiguous)) := by
  refine ⟨?_, ?_, ?_⟩
  · intro hws
    simp [resolvePromptId, hws]
  · intro hws hlen
    constructor
    · rintro ⟨p, hp, hid⟩
      have hsome : ∃ r, s.prompts.find? (fun q => q.id = input) = some r := by
        cases hfq : s.prompts.find? (fun q => q.id = input) with
        | none =>
          rw [List.find?_eq_none] at hfq
          exact absurd hid (by simpa using hfq p hp)
        | some r => exact ⟨r, rfl⟩
      obtain ⟨r, hr⟩ := hsome
      have hrid := List.find?_some hr
      simp only [decide_eq_true_eq] at hrid
      simp [resolvePromptId, hws, hlen, hr, hrid]
    · intro hall
      have hnone : s.prompts.find? (fun q => q.id = input) = none := by
        rw [List.find?_eq_none]
        intro q hq
        simpa using hall q hq
      simp [resolvePromptId, hws, hlen, hnone]
  · intro hws hlt hlit
    have hpos : 0 < input.length := by
      cases hd : input.data with
      | nil =>
        rw [hd] at hws
        simp [List.all_nil] at hws
      | cons c cs =>
        have : input.length = input.data.length := rfl
        rw [this, hd]
        simp
    have hne : ¬(input.length = 36) := by omega
    have hand : 0 < input.length ∧ input.length < 36 := ⟨hpos, hlt⟩
    have hfilters : s.prompts.filter
        (fun p => likeMatch (input.data ++ ['%']) p.id.data) =
        s.prompts.filter (fun p => startsWithCI input.data p.id.data) :=
      List.filter_congr (fun p _ => by
        rw [likeMatch_literal input.data p.id.data hlit])
    refine ⟨?_, ?_, ?_⟩
    · intro hnil
      simp [resolvePromptId, hws, hne, hand, hfilters, hnil]
    · intro p hone
      simp [resolvePromptId, hws, hne, hand, hfilters, hone]
    · intro hlen2
      rcases hshape : s.prompts.filter
          (fun p => startsWithCI input.data p.id.data) with _ | ⟨a, _ | ⟨b, l⟩⟩
      · rw [hshape] at hlen2
        simp at hlen2
      · rw [hshape] at hlen2
        simp at hlen2
      · simp [resolvePromptId, hws, hne, hand, hfilters, hshape]

/-- Concrete instantiation of resolvePromptId_spec: the prefix aa
resolves uniquely on a two-prompt store. -/
theorem resolvePromptId_spec_witness :
    ("aa".data.all isJsSpace = false ∧ "aa".length < 36 ∧
      likeLiteral "aa".data = true ∧
      statePair.prompts.filter
        (fun p2 => startsWithCI "aa".data p2.id.data) = [promptA]) ∧
    resolvePromptId statePair "aa" = Except.ok promptA.id :=
  ⟨⟨by decide, by decide, by decide, by decide⟩,
    ((resolvePromptId_spec statePair "aa").2.2 (by decide) (by decide)
      (by decide)).2.1 promptA (by decide)⟩

/-- Claim C8, counterexample to the claim as stated: the one-character
input consisting of a percent sign is a LIKE wildcard, so it matches
every stored id; with two stored prompts resolution fails with the
ambiguity error although no stored id starts with that character, where
the claim as written requires the not-found error. -/
theorem resolve_wildcard_not_literal :
    resolvePromptId statePair "%" = Except.error DbError.ambiguous ∧
    statePair.prompts.all (fun p => !("%".data.isPrefixOf p.id.data)) = true :=
  ⟨by decide, by decide⟩

lemma addFts_map_id (w : ℚ) (n : Nat) : ∀ (i : Nat) (l : List String),
    (addFtsResults w n i l).map (fun e => e.id) = l := by
  intro i l
  induction l generalizing i with
  | nil => rfl
  | cons x xs ih => simp [addFtsResults, ih]

lemma addFts_mem_basic (w : ℚ) (n : Nat) : ∀ (l : List String) (i : Nat),
    ∀ e ∈ addFtsResults w n i l,
      e.semantic_score = 0 ∧ e.hybrid_score = e.fts_score * w ∧
      e.search_types = ["fts"] := by
  intro l
  induction l with
  | nil => intro i e he; cases he
  | cons x xs ih =>
    intro i e he
    rcases List.mem_cons.mp he with rfl | he2
    · exact ⟨rfl, rfl, rfl⟩
    · exact ih (i + 1) e he2

lemma addFts_mem_score (w : ℚ) (n : Nat) : ∀ (l : List String) (i : Nat),
    l.Nodup → ∀ e ∈ addFtsResults w n i l,
      e.fts_score = ftsScoreAux n i l e.id := by
  intro l
  induction l with
  | nil => intro i _ e he; cases he
  | cons x xs ih =>
    intro i hnd e he
    obtain ⟨hx, hxs⟩ := List.nodup_cons.mp hnd
    rcases List.mem_cons.mp he with rfl | he2
    · simp [addFtsResults, ftsScoreAux]
    · have hid : e.id ∈ xs := by
        rw [← addFts_map_id w n (i + 1) xs]
        exact List.mem_map_of_mem (fun e => e.id) he2
      have hne : ¬(x = e.id) := fun h => hx (h ▸ hid)
      rw [ftsScoreAux, if_neg hne]
      exact ih (i + 1) hxs e he2

lemma ftsScoreAux_not_mem (n : Nat) : ∀ (l : List String) (i : Nat) (id : String),
    id ∉ l → ftsScoreAux n i l id = 0 := by
  intro l
  induction l with
  | nil => intro i id _; rfl
  | cons x xs ih =>
    intro i id hid
    rw [ftsScoreAux, if_neg (fun h : x = id => hid (h ▸ List.mem_cons_self x xs))]
    exact ih (i + 1) id (fun h => hid (List.mem_cons_of_mem x h))

lemma semScoreOf_not_mem : ∀ (rs : List SemResult) (id : String),
    id ∉ rs.map (fun r => r.id) → semScoreOf rs id = 0 := by
  intro rs
  induction rs with
  | nil => intro id _; rfl
  | cons r rs ih =>
    intro id hid
    simp only [List.map_cons, List.mem_cons, not_or] at hid
    rw [semScoreOf, if_neg (fun h : r.id = id => hid.1 h.symm)]
    exact ih id hid.2

lemma semScoreOf_mem : ∀ (rs : List SemResult),
    (rs.map (fun r => r.id)).Nodup → ∀ r ∈ rs, r.similarity = semScoreOf rs r.id := by
  intro rs
  induction rs with
  | nil => intro _ r hr; cases hr
  | cons x rs ih =>
    intro hnd r hr
    simp only [List.map_cons, List.nodup_cons] at hnd
    rcases List.mem_cons.mp hr with rfl | hr2
    · rw [semScoreOf, if_pos rfl]
    · have hne : ¬(x.id = r.id) := by
        intro h
        exact hnd.1 (h ▸ List.mem_map_of_mem (fun r => r.id) hr2)
      rw [semScoreOf, if_neg hne]
      exact ih hnd.2 r hr2

/-- Invariant of the semantic-merge loop of hybridSearch: relative to a
lexical score function F and a semantic score function S, every entry of
the final map carries F at its id as fts_score, S at its id as
semantic_score, and the weighted combination as hybrid_score, and the
ids stay distinct. -/
lemma mergeSem_spec (w1 w2 : ℚ) (F S : String → ℚ) :
    ∀ (rs : List SemResult) (acc : List HybridResult),
      (acc.map (fun e => e.id)).Nodup →
      (rs.map (fun r => r.id)).Nodup →
      (∀ e ∈ acc, e.fts_score = F e.id ∧
        e.hybrid_score = F e.id * w1 + e.semantic_score * w2) →
      (∀ e ∈ acc, e.id ∉ rs.map (fun r => r.id) → e.semantic_score = S e.id) →
      (∀ r ∈ rs, r.similarity = S r.id) →
      (∀ r ∈ rs, (∀ e ∈ acc, e.id ≠ r.id) → F r.id = 0) →
      ((mergeSemanticResults w1 w2 acc rs).map (fun e => e.id)).Nodup ∧
      ∀ e ∈ mergeSemanticResults w1 w2 acc rs,
        e.fts_score = F e.id ∧ e.semantic_score = S e.id ∧
        e.hybrid_score = F e.id * w1 + S e.id * w2 := by
  intro rs
  induction rs with
  | nil =>
    intro acc h1 _ h3 h4 _ _
    refine ⟨h1, fun e he => ?_⟩
    have hsem := h4 e he (by simp)
    obtain ⟨hfts, hhyb⟩ := h3 e he
    exact ⟨hfts, hsem, by rw [hhyb, hsem]⟩
  | cons r rs ih =>
    intro acc h1 h2 h3 h4 h5 h6
    simp only [List.map_cons, List.nodup_cons] at h2
    by_cases hex : acc.any (fun e => e.id = r.id) = true
    · rw [show mergeSemanticResults w1 w2 acc (r :: rs) =
          mergeSemanticResults w1 w2 (acc.map (fun e =>
            if e.id = r.id then
              { e with
                  semantic_score := r.similarity,
                  search_types := e.search_types ++ ["semantic"],
                  hybrid_score := e.fts_score * w1 + r.similarity * w2 }
            else e)) rs from by
        rw [mergeSemanticResults]
        rw [if_pos hex]]
      have hidpres : ∀ e : HybridResult,
          ((if e.id = r.id then
            { e with
                semantic_score := r.similarity,
                search_types := e.search_types ++ ["semantic"],
                hybrid_score := e.fts_score * w1 + r.similarity * w2 }
          else e) : HybridResult).id = e.id := by
        intro e
        by_cases hc : e.id = r.id <;> simp [hc]
      have hmapid : (acc.map (fun e =>
          if e.id = r.id then
            { e with
                semantic_score := r.similarity,
                search_types := e.search_types ++ ["semantic"],
                hybrid_score := e.fts_score * w1 + r.similarity * w2 }
          else e)).map (fun e => e.id) = acc.map (fun e => e.id) := by
        rw [List.map_map]
        exact List.map_congr_left (fun e _ => hidpres e)
      apply ih
      · rw [hmapid]; exact h1
      · exact h2.2
      · intro e2 he2
        obtain ⟨e, he, rfl⟩ := List.mem_map.mp he2
        by_cases hc : e.id = r.id
        · obtain ⟨hfts, _⟩ := h3 e he
          simp only [if_pos hc]
          refine ⟨hfts, ?_⟩
          rw [hfts]
        · simp only [if_neg hc]
          exact h3 e he
      · intro e2 he2 hnot
        obtain ⟨e, he, rfl⟩ := List.mem_map.mp he2
        by_cases hc : e.id = r.id
        · simp only [if_pos hc]
          have : r.similarity = S r.id := h5 r (List.mem_cons_self r rs)
          rw [this, hc]
        · simp only [if_neg hc]
          apply h4 e he
          simp only [List.map_cons, List.mem_cons, not_or]
          refine ⟨fun h => hc h, ?_⟩
          simpa only [if_neg hc, hidpres] using hnot
      · intro r2 hr2
        exact h5 r2 (List.mem_cons_of_mem r hr2)
      · intro r2 hr2 hnone
        apply h6 r2 (List.mem_cons_of_mem r hr2)
        intro e he
        have := hnone _ (List.mem_map_of_mem _ he)
        rwa [hidpres] at this
    · rw [show mergeSemanticResults w1 w2 acc (r :: rs) =
          mergeSemanticResults w1 w2
            (acc ++ [{ id := r.id, fts_score := 0,
                       semantic_score := r.similarity,
                       search_types := ["semantic"],
                       hybrid_score := r.similarity * w2,
                       search_type := "" }]) rs from by
        rw [mergeSemanticResults]
        rw [if_neg hex]]
      have hfalse : acc.any (fun e => e.id = r.id) = false := by
        cases hc : acc.any (fun e => e.id = r.id) with
        | false => rfl
        | true => exact absurd hc hex
      have hexf : ∀ e ∈ acc, e.id ≠ r.id := by
        intro e he
        have := List.any_eq_false.mp hfalse e he
        simpa using this
      have hF0 : F r.id = 0 := h6 r (List.mem_cons_self r rs) hexf
      apply ih
      · rw [List.map_append]
        rw [List.nodup_append]
        refine ⟨h1, List.nodup_singleton _, ?_⟩
        intro a ha
        simp only [List.map_cons, List.map_nil, List.mem_singleton]
        intro hb
        obtain ⟨e, he, hide⟩ := List.mem_map.mp ha
        subst hb
        exact hexf e he hide
      · exact h2.2
      · intro e he
        rcases List.mem_append.mp he with he2 | he2
        · exact h3 e he2
        · rw [List.mem_singleton] at he2
          subst he2
          refine ⟨hF0.symm, ?_⟩
          rw [hF0]
          ring
      · intro e he hnot
        rcases List.mem_append.mp he with he2 | he2
        · apply h4 e he2
          simp only [List.map_cons, List.mem_cons, not_or]
          exact ⟨hexf e he2, hnot⟩
        · rw [List.mem_singleton] at he2
          subst he2
          exact h5 r (List.mem_cons_self r rs)
      · intro r2 hr2
        exact h5 r2 (List.mem_cons_of_mem r hr2)
      · intro r2 hr2 hnone
        apply h6 r2 (List.mem_cons_of_mem r hr2)
        intro e he
        exact hnone e (List.mem_append.mpr (Or.inl he))

/-- The merged map of hybridSearch scores every entry with the
rank-derived lexical score and the raw similarity at its id. -/
lemma merged_spec (ftsIds : List String) (sems : List SemResult) (w1 w2 : ℚ)
    (hf : ftsIds.Nodup) (hs : (sems.map (fun r => r.id)).Nodup) :
    ((mergeSemanticResults w1 w2
        (addFtsResults w1 ftsIds.length 0 ftsIds) sems).map
      (fun e => e.id)).Nodup ∧
    ∀ e ∈ mergeSemanticResults w1 w2
        (addFtsResults w1 ftsIds.length 0 ftsIds) sems,
      e.fts_score = ftsScoreOf ftsIds e.id ∧
      e.semantic_score = semScoreOf sems e.id ∧
      e.hybrid_score = ftsScoreOf ftsIds e.id * w1 + semScoreOf sems e.id * w2 := by
  apply mergeSem_spec w1 w2 (ftsScoreOf ftsIds) (semScoreOf sems) sems
  · rw [addFts_map_id]
    exact hf
  · exact hs
  · intro e he
    obtain ⟨hsem, hhyb, _⟩ := addFts_mem_basic w1 ftsIds.length ftsIds 0 e he
    have hfts := addFts_mem_score w1 ftsIds.length ftsIds 0 hf e he
    exact ⟨hfts, by rw [hhyb, hfts, hsem, ftsScoreOf]; ring⟩
  · intro e he hid
    obtain ⟨hsem, _, _⟩ := addFts_mem_basic w1 ftsIds.length ftsIds 0 e he
    rw [hsem, semScoreOf_not_mem sems e.id hid]
  · exact semScoreOf_mem sems hs
  · intro r hr hnone
    have hid : r.id ∉ ftsIds := by
      rw [← addFts_map_id w1 ftsIds.length 0 ftsIds]
      intro hmem
      obtain ⟨e, he, hide⟩ := List.mem_map.mp hmem
      exact hnone e he hide
    exact ftsScoreAux_not_mem ftsIds.length ftsIds 0 r.id hid

/-- Claim C7: hybridSearch merges the lexical and semantic result lists
by record id with no duplicate entries; every output record carries
fts_score 1 - i/N for its 0-indexed lexical rank i among N lexical
results (0 when absent), semantic_score equal to its raw similarity (0
when absent), and hybrid_score equal to fts_score times 0.6 plus
semantic_score times 0.4; the output is ordered by descending
hybrid_score and truncated to the limit. -/
theorem hybridSearch_merge_spec (ftsIds : List String) (sems : List SemResult)
    (limit : Nat) (hf : ftsIds.Nodup)
    (hs : (sems.map (fun r => r.id)).Nodup) :
    ((hybridSearch ftsIds sems limit (6/10) (4/10)).map
      (fun e => e.id)).Nodup ∧
    (∀ e ∈ hybridSearch ftsIds sems limit (6/10) (4/10),
      e.fts_score = ftsScoreOf ftsIds e.id ∧
      e.semantic_score = semScoreOf sems e.id ∧
      e.hybrid_score = e.fts_score * (6/10) + e.semantic_score * (4/10)) ∧
    (hybridSearch ftsIds sems limit (6/10) (4/10)).Pairwise
      (fun a b => b.hybrid_score ≤ a.hybrid_score) ∧
    (hybridSearch ftsIds sems limit (6/10) (4/10)).length ≤ limit := by
  obtain ⟨hnd, hmem⟩ := merged_spec ftsIds sems (6/10) (4/10) hf hs
  have hperm := List.perm_insertionSort hybridDescOrder
    (mergeSemanticResults (6/10) (4/10)
      (addFtsResults (6/10) ftsIds.length 0 ftsIds) sems)
  have hsorted := List.sorted_insertionSort hybridDescOrder
    (mergeSemanticResults (6/10) (4/10)
      (addFtsResults (6/10) ftsIds.length 0 ftsIds) sems)
  have hsub := List.take_sublist limit (List.insertionSort hybridDescOrder
    (mergeSemanticResults (6/10) (4/10)
      (addFtsResults (6/10) ftsIds.length 0 ftsIds) sems))
  have htagid : ((fun e : HybridResult => e.id) ∘ (fun r : HybridResult =>
      { r with
          search_type :=
            if r.search_types.length > 1 then "hybrid"
            else r.search_types.headD "" })) = fun e : HybridResult => e.id := rfl
  refine ⟨?_, ?_, ?_, ?_⟩
  · unfold hybridSearch
    rw [List.map_map, htagid, List.map_take]
    apply List.Nodup.sublist (List.take_sublist limit _)
    exact ((hperm.map (fun e => e.id)).nodup_iff).mpr hnd
  · intro e he
    unfold hybridSearch at he
    obtain ⟨e0, he0, rfl⟩ := List.mem_map.mp he
    have he1 : e0 ∈ List.insertionSort hybridDescOrder
        (mergeSemanticResults (6/10) (4/10)
          (addFtsResults (6/10) ftsIds.length 0 ftsIds) sems) :=
      hsub.mem he0
    have he2 := hperm.mem_iff.mp he1
    obtain ⟨hfts, hsem, hhyb⟩ := hmem e0 he2
    exact ⟨hfts, hsem, by rw [hhyb, hfts, hsem]⟩
  · unfold hybridSearch
    rw [List.pairwise_map]
    have := hsorted.sublist hsub
    exact this.imp (fun h => h)
  · unfold hybridSearch
    rw [List.length_map, List.length_take]
    exact min_le_left _ _

/-- Concrete instantiation of hybridSearch_merge_spec on two lexical
results and one overlapping semantic result. -/
theorem hybridSearch_merge_spec_witness :
    ((["a", "b"] : List String).Nodup ∧
      (([⟨"b", 1/2⟩] : List SemResult).map (fun r => r.id)).Nodup) ∧
    (hybridSearch ["a", "b"] [⟨"b", 1/2⟩] 10 (6/10) (4/10)).length ≤ 10 :=
  ⟨⟨by decide, by decide⟩,
    (hybridSearch_merge_spec ["a", "b"] [⟨"b", 1/2⟩] 10
      (by decide) (by decide)).2.2.2⟩

lemma addFts_step_le (w : ℚ) (hw : 0 ≤ w) (n i : Nat) :
    (1 - ((i + 1 : Nat) : ℚ) / ((max n 1 : Nat) : ℚ)) * w ≤
      (1 - (i : ℚ) / ((max n 1 : Nat) : ℚ)) * w := by
  have hM : (0 : ℚ) < ((max n 1 : Nat) : ℚ) := by
    have : 0 < max n 1 := by omega
    exact_mod_cast this
  apply mul_le_mul_of_nonneg_right _ hw
  apply sub_le_sub_left
  rw [div_le_div_iff_of_pos_right hM]
  push_cast
  linarith

lemma addFts_hybrid_le (w : ℚ) (hw : 0 ≤ w) (n : Nat) : ∀ (l : List String) (i : Nat),
    ∀ e ∈ addFtsResults w n i l,
      e.hybrid_score ≤ (1 - (i : ℚ) / ((max n 1 : Nat) : ℚ)) * w := by
  intro l
  induction l with
  | nil => intro i e he; cases he
  | cons x xs ih =>
    intro i e he
    rcases List.mem_cons.mp he with rfl | he2
    · exact le_refl _
    · exact le_trans (ih (i + 1) e he2) (addFts_step_le w hw n i)

lemma addFts_sorted (w : ℚ) (hw : 0 ≤ w) (n : Nat) : ∀ (l : List String) (i : Nat),
    (addFtsResults w n i l).Pairwise hybridDescOrder := by
  intro l
  induction l with
  | nil => intro i; exact List.Pairwise.nil
  | cons x xs ih =>
    intro i
    rw [addFtsResults]
    refine List.Pairwise.cons ?_ (ih (i + 1))
    intro e he
    exact le_trans (addFts_hybrid_le w hw n xs (i + 1) e he)
      (addFts_step_le w hw n i)

lemma semanticSearch_empty (sim : List ℚ → List ℚ → ℚ) (q : List ℚ)
    (s : DBState) (limit : Nat) (hemb : s.embeddings = []) :
    semanticSearch sim q s limit = [] := by
  simp [semanticSearch, hemb]

lemma addFts_take (w : ℚ) (n : Nat) : ∀ (l : List String) (i m : Nat),
    (addFtsResults w n i l).take m = addFtsResults w n i (l.take m) := by
  intro l
  induction l with
  | nil => intro i m; simp [addFtsResults]
  | cons x xs ih =>
    intro i m
    cases m with
    | zero => rfl
    | succ m2 =>
      rw [addFtsResults, List.take_succ_cons, List.take_succ_cons,
        addFtsResults, ih (i + 1) m2]

/-- With no semantic results, the hybrid merge returns the first limit
lexical results in lexical order, every entry tagged fts with a zero
semantic score. -/
lemma hybridSearch_no_semantic (ftsIds : List String) (limit : Nat) :
    (hybridSearch ftsIds [] limit (6/10) (4/10)).map (fun e => e.id) =
      ftsIds.take limit ∧
    ∀ e ∈ hybridSearch ftsIds [] limit (6/10) (4/10),
      e.search_type = "fts" ∧ e.semantic_score = 0 ∧
      e.hybrid_score = e.fts_score * (6/10) := by
  have hmerge : mergeSemanticResults (6/10) (4/10)
      (addFtsResults (6/10) ftsIds.length 0 ftsIds) [] =
      addFtsResults (6/10) ftsIds.length 0 ftsIds := rfl
  have hsorted : List.insertionSort hybridDescOrder
      (addFtsResults (6/10) ftsIds.length 0 ftsIds) =
      addFtsResults (6/10) ftsIds.length 0 ftsIds :=
    List.Sorted.insertionSort_eq
      (addFts_sorted (6/10) (by norm_num) ftsIds.length ftsIds 0)
  have htagid : ((fun e : HybridResult => e.id) ∘ (fun r : HybridResult =>
      { r with
          search_type :=
            if r.search_types.length > 1 then "hybrid"
            else r.search_types.headD "" })) = fun e : HybridResult => e.id := rfl
  constructor
  · unfold hybridSearch
    rw [hmerge, hsorted, addFts_take, List.map_map, htagid, addFts_map_id]
  · intro e he
    unfold hybridSearch at he
    rw [hmerge, hsorted, addFts_take] at he
    obtain ⟨e0, he0, rfl⟩ := List.mem_map.mp he
    obtain ⟨hsem, hhyb, hst⟩ := addFts_mem_basic (6/10) ftsIds.length
      (ftsIds.take limit) 0 e0 he0
    refine ⟨?_, hsem, hhyb⟩
    simp [hst]

/-- Claim C6 (amended): when the embedding store is empty, hybridSearch
performs no semantic scoring and returns exactly the first
min(N, limit) lexical results in lexical order (so it coincides with
the lexical result set and order whenever at most limit records
match), every output record tagged search_type fts with semantic_score
zero and hybrid_score equal to its lexical score times the lexical
weight. -/
theorem hybridSearch_empty_embeddings_fts (ftsIds : List String)
    (sim : List ℚ → List ℚ → ℚ) (q : List ℚ) (s : DBState) (limit : Nat)
    (hemb : s.embeddings = []) :
    (hybridSearch ftsIds (semanticSearch sim q s (limit * 2)) limit
        (6/10) (4/10)).map (fun e => e.id) = ftsIds.take limit ∧
    ∀ e ∈ hybridSearch ftsIds (semanticSearch sim q s (limit * 2)) limit
        (6/10) (4/10),
      e.search_type = "fts" ∧ e.semantic_score = 0 ∧
      e.hybrid_score = e.fts_score * (6/10) := by
  rw [semanticSearch_empty sim q s (limit * 2) hemb]
  exact hybridSearch_no_semantic ftsIds limit

/-- Concrete instantiation of hybridSearch_empty_embeddings_fts on a
two-result lexical list over the empty store. -/
theorem hybridSearch_empty_embeddings_fts_witness :
    (⟨[], [], []⟩ : DBState).embeddings = [] ∧
    (hybridSearch ["x", "y"]
        (semanticSearch (fun _ _ => 0) [] ⟨[], [], []⟩ (3 * 2)) 3
        (6/10) (4/10)).map (fun e => e.id) = ["x", "y"].take 3 :=
  ⟨rfl, (hybridSearch_empty_embeddings_fts ["x", "y"] (fun _ _ => 0) []
    ⟨[], [], []⟩ 3 rfl).1⟩

/-- Claim C6, counterexample to the claim as stated: with an empty
embedding store but eleven lexical matches and the default limit of
ten, hybridSearch does not return the same record set as the lexical
search; the eleventh lexical result is cut off by the limit. -/
theorem hybridSearch_truncates_fts :
    (⟨[], [], []⟩ : DBState).embeddings = [] ∧
    (hybridSearch elevenIds
        (semanticSearch (fun _ _ => 0) [] ⟨[], [], []⟩ (10 * 2)) 10
        (6/10) (4/10)).map (fun e => e.id) ≠ elevenIds := by
  refine ⟨rfl, ?_⟩
  rw [semanticSearch_empty (fun _ _ => 0) [] ⟨[], [], []⟩ (10 * 2) rfl,
    (hybridSearch_no_semantic elevenIds 10).1]
  decide

lemma addAt_add_fun (v w : Fin 384 → ℚ) (p : Fin 384) (x : ℚ) :
    addAt (fun j => v j + w j) p x = fun i => v i + addAt w p x i := by
  funext i
  unfold addAt
  by_cases h : i = p
  · simp only [if_pos h]
    ring
  · simp only [if_neg h]

lemma wordStep_add_fun (v w : Fin 384 → ℚ) (idx : Nat) (word : String) :
    wordStep (fun j => v j + w j) idx word =
      fun i => v i + wordStep w idx word i := by
  simp only [wordStep]
  rw [addAt_add_fun v w, addAt_add_fun v, addAt_add_fun v]

lemma applyWF_add : ∀ (ws : List String) (idx : Nat) (v w : Fin 384 → ℚ),
    applyWordFeatures (fun j => v j + w j) idx ws =
      fun i => v i + applyWordFeatures w idx ws i := by
  intro ws
  induction ws with
  | nil => intro idx v w; rfl
  | cons word ws ih =>
    intro idx v w
    show applyWordFeatures (wordStep (fun j => v j + w j) idx word) (idx + 1) ws = _
    rw [wordStep_add_fun v w idx word, ih (idx + 1) v (wordStep w idx word)]
    rfl

/-- The random draws enter rawSimpleEmbedding only as the additive
initial values: the accumulated vector is the deterministic
text-feature vector plus the per-slot initialisation offset. -/
lemma raw_split (rand : Fin 384 → ℚ) (text : String) (i : Fin 384) :
    rawSimpleEmbedding rand text i =
      (rand i - 1/2) * (1/10) +
        rawSimpleEmbedding (fun _ => (1:ℚ)/2) text i := by
  have h0 : (fun i : Fin 384 => (rand i - 1/2) * ((1:ℚ)/10)) =
      (fun j : Fin 384 =>
        (fun k : Fin 384 => (rand k - 1/2) * ((1:ℚ)/10) -
          ((1:ℚ)/2 - 1/2) * (1/10)) j +
        (fun _ : Fin 384 => ((1:ℚ)/2 - 1/2) * (1/10)) j) := by
    funext j
    ring
  simp only [rawSimpleEmbedding]
  rw [h0, applyWF_add, addAt_add_fun, addAt_add_fun, addAt_add_fun]
  ring

lemma rawHalf_empty_three :
    rawSimpleEmbedding (fun _ => (1:ℚ)/2) "" ⟨3, by norm_num⟩ = 0 := by
  have hd : "".data = [] := rfl
  simp [rawSimpleEmbedding, jsSplitWs, jsSplitWsF, asciiLower,
    applyWordFeatures, wordStep, addAt, hashString, mkIdx, sentenceCount,
    hd, Fin.ext_iff]
  norm_num [show ((3 : Fin 384) : Nat) = 3 from rfl]

lemma rawHalf_empty_zero :
    rawSimpleEmbedding (fun _ => (1:ℚ)/2) "" ⟨0, by norm_num⟩ = 1 := by
  have hd : "".data = [] := rfl
  simp [rawSimpleEmbedding, jsSplitWs, jsSplitWsF, asciiLower,
    applyWordFeatures, wordStep, addAt, hashString, mkIdx, sentenceCount,
    hd, Fin.ext_iff]

lemma embNormSq_pos_of_slot {v : Fin 384 → ℚ} {i : Fin 384} (h : v i = 1) :
    0 < embNormSq v := by
  have hle : v i * v i ≤ embNormSq v :=
    Finset.single_le_sum (fun j _ => mul_self_nonneg (v j)) (Finset.mem_univ i)
  rw [h] at hle
  linarith

/-- Claim C5 (amended): the fallback generator is deterministic only in
its text-derived features.  The accumulated (pre-normalisation) vector
equals the deterministic feature vector of the text plus the additive
per-slot initialisation (rand i - 0.5) * 0.1 drawn from Math.random, so
two calls agree exactly when their random draws agree; the
generateSimpleEmbedding output normalises this vector, and calls with
different draws generally differ bitwise. -/
theorem rawSimpleEmbedding_decomposition (rand : Fin 384 → ℚ)
    (text : String) (i : Fin 384) :
    rawSimpleEmbedding rand text i =
      (rand i - 1/2) * (1/10) +
        rawSimpleEmbedding (fun _ => (1:ℚ)/2) text i :=
  raw_split rand text i

/-- Claim C5, counterexample to the claim as stated: two calls of the
fallback generator on the same (empty) text but with different
Math.random draws produce different output vectors, so the generator is
not deterministic across calls. -/
theorem generateSimpleEmbedding_not_deterministic :
    generateSimpleEmbedding randHalf "" ≠ generateSimpleEmbedding randShift "" := by
  have hhalf0 : rawSimpleEmbedding randHalf "" ⟨0, by norm_num⟩ = 1 :=
    rawHalf_empty_zero
  have hhalf3 : rawSimpleEmbedding randHalf "" ⟨3, by norm_num⟩ = 0 :=
    rawHalf_empty_three
  have hs0 : rawSimpleEmbedding randShift "" ⟨0, by norm_num⟩ = 1 := by
    rw [raw_split, rawHalf_empty_zero]
    norm_num [randShift, Fin.ext_iff]
  have hs3 : rawSimpleEmbedding randShift "" ⟨3, by norm_num⟩ = 1/50 := by
    rw [raw_split, rawHalf_empty_three]
    norm_num [randShift]
  have hpos1 : (0:ℚ) < embNormSq (rawSimpleEmbedding randHalf "") :=
    embNormSq_pos_of_slot hhalf0
  have hpos2 : (0:ℚ) < embNormSq (rawSimpleEmbedding randShift "") :=
    embNormSq_pos_of_slot hs0
  have hsq1 : (0:ℝ) < Real.sqrt ((embNormSq (rawSimpleEmbedding randHalf "") : ℚ) : ℝ) :=
    Real.sqrt_pos.mpr (by exact_mod_cast hpos1)
  have hsq2 : (0:ℝ) < Real.sqrt ((embNormSq (rawSimpleEmbedding randShift "") : ℚ) : ℝ) :=
    Real.sqrt_pos.mpr (by exact_mod_cast hpos2)
  intro h
  have h3 := congrFun h ⟨3, by norm_num⟩
  simp only [generateSimpleEmbedding] at h3
  rw [if_pos hsq1, if_pos hsq2] at h3
  rw [hhalf3, hs3] at h3
  rw [show ((0:ℚ):ℝ) = 0 from by norm_num, zero_div] at h3
  have hne : ((1/50 : ℚ):ℝ) /
      Real.sqrt ((embNormSq (rawSimpleEmbedding randShift "") : ℚ) : ℝ) ≠ 0 :=
    div_ne_zero (by norm_num) (ne_of_gt hsq2)
  exact hne h3.symm
